import Mathlib

/-!
Verification development for the golden-questions extraction pipeline
(`evals/golden_questions/src`): a shallow embedding of the data model and of
the extraction, categorization and deduplication operations, together with
theorems about them.

Conventions of the embedding:
* Python strings are Lean `String`s; the character-level operations
  (lowercasing, the regex character class of word characters, whitespace)
  are modelled for the ASCII plus Norwegian (æøåÆØÅ) alphabet that the
  pipeline processes.
* Python ints are `Int`/`Nat`; similarity scores are `ℚ` (the semantic stage
  consumes a similarity value only through the comparison with the
  threshold, so the floating-point cosine computation is abstracted into a
  rational-valued similarity oracle, see `EmbedClient`).
* Fallible code returns `Except String`; file writes are modelled as pure
  write-effect values (`Option (WriteMode × records)`), `none` meaning the
  file is left untouched.
* LLM backends are oracles: a schedule `Nat → Completion` gives the outcome
  of the n-th chat call of a retry loop, and a `Reformulator` gives the
  outcome of one reformulation request.
-/

namespace GoldenQuestions

/-! ## Data model (`models.py`) -/

/-- A retrieval chunk attached to an assistant message.  The pipeline only
inspects the number of chunks and the document title. -/
structure Chunk where
  docTitle : String
  content : String
deriving DecidableEq, Repr

/-- A dynamically-typed option inside a `selected-options` list of a filter
field: either a string or a non-string JSON value (tagged by a number so
that equality is decidable). -/
inductive FOpt where
  | str (s : String)
  | other (tag : Nat)
deriving DecidableEq, Repr

/-- The `filterValue.fields[k]` entry of a message: the `field` name (absent
keys give `none`) and the `selected-options` list (absent key gives `[]`). -/
structure FilterField where
  field : Option String
  selectedOptions : List FOpt
deriving DecidableEq, Repr

/-- The `filterValue` structure of a message.  A missing/`None`/falsy or
non-dict `filterValue`, or one whose `fields` key is missing or not a list,
behaves exactly like an empty `fields` list, so those cases are represented
by `none` at the message level or by `fields = []`. -/
structure FilterValue where
  fields : List FilterField
deriving DecidableEq, Repr

/-- `Message` from `models.py`. -/
structure Message where
  id : String
  text : String
  role : Option String
  created : Int
  chunks : List Chunk
  filterValue : Option FilterValue
deriving DecidableEq, Repr

/-- `Conversation` from `models.py`. -/
structure Conversation where
  id : String
  topic : String
  entityId : String
  userId : String
  created : Int
  messages : List Message
deriving DecidableEq, Repr

/-- `UsageMode` from `models.py`. -/
structure UsageMode where
  document_scope : String
  operation_type : String
  output_complexity : String
deriving DecidableEq, Repr

/-- One entry of a golden question's `context_messages` list
(a dict with keys `role` and `text`). -/
structure CtxMsg where
  role : Option String
  text : String
deriving DecidableEq, Repr

/-- The metadata dict built by `extract_golden_questions`:
`{"topic": conv.topic, "user_id": conv.userId, "created": msg.created}`. -/
structure QMeta where
  topic : String
  user_id : String
  created : Int
deriving DecidableEq, Repr

/-- `GoldenQuestion` from `models.py`. -/
structure GoldenQuestion where
  id : String
  question : String
  original_question : String
  conversation_id : String
  context_messages : List CtxMsg
  has_retrieval : Bool
  usage_mode : UsageMode
  subject_topics : List String
  metadata : QMeta
  question_changed : Bool
  filters : Option (List (String × List FOpt))
deriving DecidableEq, Repr

/-! ## Text normalization (`deduplicator.py`, `_normalize_text`) -/

/-- Python `str.lower`, restricted to ASCII letters and the Norwegian
letters Æ, Ø, Å. -/
def pyLower (c : Char) : Char :=
  if c = 'Æ' then 'æ'
  else if c = 'Ø' then 'ø'
  else if c = 'Å' then 'å'
  else c.toLower

/-- The regex class `\w` (word characters), restricted to ASCII
alphanumerics, underscore and the Norwegian letters. -/
def isWordChar (c : Char) : Bool :=
  c.isAlphanum || c = '_' || c = 'æ' || c = 'ø' || c = 'å' || c = 'Æ' || c = 'Ø' || c = 'Å'

/-- The whitespace characters recognized by `str.split` / `str.strip` /
regex `\s` on the texts the pipeline processes. -/
def isPySpace (c : Char) : Bool :=
  c = ' ' || c = '\t' || c = '\n' || c = '\r'

/-- Python `str.strip()`: drop leading and trailing whitespace. -/
def pyStrip (s : String) : String :=
  String.mk
    (((s.toList.dropWhile fun c => isPySpace c).reverse.dropWhile
        fun c => isPySpace c).reverse)

/-- Python `str.split()` (no argument): the maximal whitespace-free runs of
the character list, in order — empty runs are dropped.  `cur` is the
current run, reversed. -/
def pyWords : List Char → List Char → List (List Char)
  | [], cur => if cur = [] then [] else [cur.reverse]
  | c :: rest, cur =>
    if isPySpace c then
      if cur = [] then pyWords rest [] else cur.reverse :: pyWords rest []
    else pyWords rest (c :: cur)

/-- `" ".join(words)`. -/
def joinWords : List (List Char) → List Char
  | [] => []
  | [w] => w
  | w :: ws => w ++ ' ' :: joinWords ws

/-- `_normalize_text` (deduplicator.py): lowercase, drop characters matching
`[^\w\s]`, then collapse whitespace via `" ".join(text.split())`. -/
def normalize_text (text : String) : String :=
  let lowered := text.toList.map pyLower
  let stripped := lowered.filter (fun c => isWordChar c || isPySpace c)
  String.mk (joinWords (pyWords stripped []))

/-! ## Exact-match deduplication stage (`deduplicate_questions`, stage 1) -/

/-- Lookup in the `seen_normalized` association list. -/
def findSeen : List (String × GoldenQuestion) → String → Option GoldenQuestion
  | [], _ => none
  | (k, v) :: rest, n => if k = n then some v else findSeen rest n

/-- A record of a dropped duplicate: `(duplicate, kept original, score)`. -/
abbrev DupRec := GoldenQuestion × GoldenQuestion × ℚ

/-- Stage 1 of `deduplicate_questions`: walk the question list keeping the
first question per normalized form; later questions with an already-seen
form are recorded as exact duplicates (score 1) of the stored original. -/
def exactGo (seen : List (String × GoldenQuestion)) :
    List GoldenQuestion → List GoldenQuestion × List DupRec
  | [] => ([], [])
  | q :: rest =>
    let n := normalize_text q.question
    match findSeen seen n with
    | none =>
      let r := exactGo (seen ++ [(n, q)]) rest
      (q :: r.1, r.2)
    | some original =>
      let r := exactGo seen rest
      (r.1, (q, original, (1 : ℚ)) :: r.2)

/-- The exact-match stage run from an empty `seen_normalized` map. -/
def exactStage (questions : List GoldenQuestion) :
    List GoldenQuestion × List DupRec :=
  exactGo [] questions

/-! ## Semantic deduplication sweep (`deduplicate_questions`, stage 2)

The inner/outer loops over `range(len(deduplicated))` with the mutable
`indices_to_remove` set, translated with the removed set as a list of
indices and the collected `semantic_duplicates` as `(j, i, score)` index
triples. -/

/-- The inner loop `for j in range(i+1, n)` of the semantic sweep. -/
def innerScan (sim : Nat → Nat → ℚ) (t : ℚ) (i : Nat) :
    List Nat → List Nat → List (Nat × Nat × ℚ) → List Nat × List (Nat × Nat × ℚ)
  | [], removed, pairs => (removed, pairs)
  | j :: js, removed, pairs =>
    if j ∈ removed then innerScan sim t i js removed pairs
    else if t ≤ sim i j then
      innerScan sim t i js (j :: removed) (pairs ++ [(j, i, sim i j)])
    else innerScan sim t i js removed pairs

/-- The outer loop `for i in range(n)` of the semantic sweep. -/
def outerScan (sim : Nat → Nat → ℚ) (t : ℚ) (n : Nat) :
    List Nat → List Nat → List (Nat × Nat × ℚ) → List Nat × List (Nat × Nat × ℚ)
  | [], removed, pairs => (removed, pairs)
  | i :: is, removed, pairs =>
    if i ∈ removed then outerScan sim t n is removed pairs
    else
      let r := innerScan sim t i (List.range' (i + 1) (n - (i + 1))) removed pairs
      outerScan sim t n is r.1 r.2

/-! ## Spec-side characterization of the sweep

Modelled from the spec sentence: scanning index pairs `(i, j)` with `i < j`
in ascending (lexicographic) order, `j` is marked a duplicate of `i` iff
`sim i j ≥ t` and neither `i` nor `j` has been removed earlier in the sweep;
the returned list is the surviving items in their original input order. -/

/-- All index pairs `(i, j)` with `i < j < n`, in ascending order. -/
def specPairs (n : Nat) : List (Nat × Nat) :=
  (List.range n).flatMap fun i =>
    (List.range' (i + 1) (n - (i + 1))).map fun j => (i, j)

/-- The single ordered greedy sweep over a pair list, as the spec words it. -/
def specSweep (sim : Nat → Nat → ℚ) (t : ℚ) :
    List (Nat × Nat) → List Nat → List Nat
  | [], removed => removed
  | (i, j) :: rest, removed =>
    if i ∉ removed ∧ j ∉ removed ∧ t ≤ sim i j then
      specSweep sim t rest (j :: removed)
    else specSweep sim t rest removed

/-- The set of indices removed by the spec-side greedy sweep over `n` items. -/
def specRemoved (n : Nat) (sim : Nat → Nat → ℚ) (t : ℚ) : List Nat :=
  specSweep sim t (specPairs n) []

/-- The surviving items in their original input order. -/
def specSurvivors (l : List GoldenQuestion) (sim : Nat → Nat → ℚ) (t : ℚ) :
    List GoldenQuestion :=
  ((l.enum).filter (fun p => decide (p.1 ∉ specRemoved l.length sim t))).map Prod.snd

/-! ## `deduplicate_questions` (deduplicator.py) -/

/-- The embedding backend (`embedding_client` composed with
`_generate_embeddings` and `_compute_cosine_similarity`): either every
embedding request fails — `_generate_embeddings` wraps any error in a
`RuntimeError` — or the calls succeed and induce the pairwise similarity
values `sim i j` that the sweep compares with the threshold. -/
inductive EmbedClient where
  | failing
  | sim (f : Nat → Nat → ℚ)

/-- The mode a side-channel file is opened with. -/
inductive WriteMode where
  | overwrite
  | append
deriving DecidableEq, Repr

/-- The outcome of one `deduplicate_questions` run: the surviving questions,
the transparency records of all dropped duplicates, and the write effect on
the dropped-duplicates file (`none` = file left untouched). -/
structure DedupRun where
  result : List GoldenQuestion
  duplicates : List DupRec
  fileWrite : Option (WriteMode × List DupRec)
deriving DecidableEq

deriving instance DecidableEq for Except

/-- Python truthiness of the optional `output_dropped_file` argument. -/
def pathTruthy : Option String → Bool
  | none => false
  | some s => s ≠ ""

/-- Placeholder question used only as the (unreachable) default of a safe
list indexing in the semantic-duplicate record construction. -/
def defaultQuestion : GoldenQuestion :=
  ⟨"", "", "", "", [], false, ⟨"", "", ""⟩, [], ⟨"", "", 0⟩, false, none⟩

/-- The tail of `deduplicate_questions`: the dropped-duplicates file is
written only when a path was given (and truthy) and at least one duplicate
was recorded (`if output_dropped_file and duplicates:`), always in overwrite
mode. -/
def dedupFinish (output_dropped_file : Option String)
    (deduplicated : List GoldenQuestion) (duplicates : List DupRec) :
    Except String DedupRun :=
  .ok ⟨deduplicated, duplicates,
    if pathTruthy output_dropped_file ∧ duplicates ≠ [] then
      some (WriteMode.overwrite, duplicates)
    else none⟩

/-- `deduplicate_questions` (deduplicator.py): threshold validation, client
validation, empty fast path, exact-match stage, then the semantic sweep when
enabled and more than one question survived.  An embedding failure
(`RuntimeError`) is caught and the exact-match result is returned. -/
def deduplicate_questions (questions : List GoldenQuestion)
    (output_dropped_file : Option String) (use_semantic : Bool)
    (similarity_threshold : ℚ) (embedding_client : Option EmbedClient)
    (embedding_model : Option String) : Except String DedupRun :=
  if ¬ (0 ≤ similarity_threshold ∧ similarity_threshold ≤ 1) then
    .error "similarity_threshold must be between 0.0 and 1.0"
  else if use_semantic ∧ (embedding_client.isNone ∨ embedding_model.isNone) then
    .error "embedding_client and embedding_model are required when use_semantic=True"
  else if questions = [] then .ok ⟨[], [], none⟩
  else
    let e := exactStage questions
    if use_semantic ∧ e.1.length > 1 then
      match embedding_client with
      | some EmbedClient.failing =>
        -- RuntimeError from _generate_embeddings: caught, fall back to exact match
        dedupFinish output_dropped_file e.1 e.2
      | some (EmbedClient.sim f) =>
        let n := e.1.length
        let r := outerScan f similarity_threshold n (List.range n) [] []
        let dedup2 := ((e.1.enum).filter (fun p => decide (p.1 ∉ r.1))).map Prod.snd
        let semRecords := r.2.map fun p =>
          (e.1.getD p.1 defaultQuestion, e.1.getD p.2.1 defaultQuestion, p.2.2)
        dedupFinish output_dropped_file dedup2 (e.2 ++ semRecords)
      | none =>
        -- unreachable: the validation above guarantees a client is present
        dedupFinish output_dropped_file e.1 e.2
    else dedupFinish output_dropped_file e.1 e.2

/-! ## Conversation filter (`filter.py`) -/

/-- The predicate a message must satisfy for `should_process_conversation`
to count it as a meaningful user message: role `"user"` and non-empty
stripped text (`msg.text and msg.text.strip()`). -/
def meaningfulUser (m : Message) : Bool :=
  decide (m.role = some "user") && decide (pyStrip m.text ≠ "")

/-- `should_process_conversation` (filter.py): keep a conversation iff it
has at least one user message with non-empty text (the system-role and
`None`-role skips of the source loop are subsumed by the user-role check). -/
def should_process_conversation (conv : Conversation) : Bool :=
  conv.messages.any meaningfulUser

/-- `get_drop_reason` (filter.py). -/
def get_drop_reason (conv : Conversation) : String :=
  if conv.messages.filter meaningfulUser = [] then
    if conv.topic = "Ny tråd" then "Ny tråd with no user messages"
    else "No user messages"
  else if conv.messages.filter (fun m => decide (m.role ≠ some "system")) = [] then
    "Only system messages"
  else if conv.messages.filter (fun m => decide (pyStrip m.text ≠ "")) = [] then
    "All messages empty"
  else "Other (see conversation details)"

/-- A record written to the dropped-conversations file. -/
structure DroppedConvRec where
  conversation_id : String
  topic : String
  drop_reason : String
deriving DecidableEq, Repr

/-- The record `save_dropped_conversations` writes for one conversation. -/
def droppedConvRecord (conv : Conversation) : DroppedConvRec :=
  ⟨conv.id, conv.topic, get_drop_reason conv⟩

/-- `filter_conversations` (filter.py): partition the conversations and,
when a dropped-file path is given, write the dropped records (overwrite
mode, also when the dropped list is empty). -/
def filter_conversations (conversations : List Conversation)
    (output_dropped_file : Option String) :
    List Conversation × Option (WriteMode × List DroppedConvRec) :=
  let filtered := conversations.filter should_process_conversation
  let dropped := conversations.filter (fun c => ¬ should_process_conversation c)
  ( filtered,
    if pathTruthy output_dropped_file then
      some (WriteMode.overwrite, dropped.map droppedConvRecord)
    else none )

/-! ## Filter extraction (`extractor.py`, `extract_filters`) -/

/-- `KNOWN_DOCUMENT_TYPES` (extractor.py). -/
def KNOWN_DOCUMENT_TYPES : List String :=
  ["Evaluering", "Instruks", "Melding til Stortinget", "Proposisjon til Stortinget",
   "Statusrapport", "Strategi/plan", "Tildelingsbrev", "Årsrapport"]

/-- `DOCUMENT_TYPE_CORRECTIONS` (extractor.py). -/
def DOCUMENT_TYPE_CORRECTIONS : List (String × String) :=
  [("Årsrapprt", "Årsrapport")]

/-- `DOCUMENT_TYPE_CORRECTIONS.get(option, option)`. -/
def applyCorrection (s : String) : String :=
  match DOCUMENT_TYPE_CORRECTIONS.find? (fun p => p.1 = s) with
  | some p => p.2
  | none => s

/-- Association-list lookup in the accumulated `filters` dict
(Python dicts preserve insertion order). -/
def lookupEntry : List (String × List FOpt) → String → Option (List FOpt)
  | [], _ => none
  | (k, l) :: rest, n => if k = n then some l else lookupEntry rest n

/-- `filters[name].append(o)` guarded by `if o not in filters[name]`. -/
def entryAdd : List (String × List FOpt) → String → FOpt → List (String × List FOpt)
  | [], _, _ => []
  | (k, l) :: rest, name, o =>
    if k = name then (k, if o ∈ l then l else l ++ [o]) :: rest
    else (k, l) :: entryAdd rest name o

/-- `if field_name not in filters: filters[field_name] = []`. -/
def ensureEntry (fs : List (String × List FOpt)) (name : String) :
    List (String × List FOpt) :=
  if (lookupEntry fs name).isSome then fs else fs ++ [(name, [])]

/-- The option-insertion loops of `extract_filters` for one field whose
(truthy) name and non-empty `selected-options` passed the guard: for the
`"type"` field only string options are added, after the typo correction;
for other fields any option — each only if not yet present. -/
def addFieldOptions (fs : List (String × List FOpt)) (name : String)
    (opts : List FOpt) : List (String × List FOpt) :=
  let fs1 := ensureEntry fs name
  if name = "type" then
    opts.foldl
      (fun acc o =>
        match o with
        | FOpt.str s => entryAdd acc name (FOpt.str (applyCorrection s))
        | FOpt.other _ => acc)
      fs1
  else
    opts.foldl (fun acc o => entryAdd acc name o) fs1

/-- Processing of one `fields` entry in `extract_filters`: guard on a truthy
field name and a non-empty `selected-options` list, create the dict entry,
then add the options. -/
def processField (fs : List (String × List FOpt)) (f : FilterField) :
    List (String × List FOpt) :=
  match f.field with
  | none => fs
  | some name =>
    if name = "" then fs
    else if f.selectedOptions = [] then fs
    else addFieldOptions fs name f.selectedOptions

/-- `extract_filters` (extractor.py): fold over all messages and all filter
fields, accumulating the field-name → selected-values dict. -/
def extract_filters (messages : List Message) : List (String × List FOpt) :=
  messages.foldl
    (fun fs msg =>
      match msg.filterValue with
      | none => fs
      | some fv => fv.fields.foldl processField fs)
    []

/-! ## Extraction (`extractor.py`) -/

/-- `generate_message_id` (extractor.py). -/
def generate_message_id (conversation_id : String) (user_message_index : Nat) : String :=
  conversation_id ++ "_" ++ toString user_message_index

/-- `_check_has_retrieval`: whether the first assistant message after index
`i` has retrieval chunks. -/
def checkFrom : List Message → Bool
  | [] => false
  | m :: rest =>
    if m.role = some "assistant" then decide (m.chunks.length > 0)
    else checkFrom rest

/-- `_check_has_retrieval` (extractor.py). -/
def _check_has_retrieval (messages : List Message) (user_msg_index : Nat) : Bool :=
  checkFrom (messages.drop (user_msg_index + 1))

/-- `previous_messages[-3:]`. -/
def lastN (l : List Message) (n : Nat) : List Message :=
  l.drop (l.length - n)

/-- The reformulation oracle: the outcome of one `reformulate_question_llm`
call on a question text with its context messages — the returned standalone
question, or the message of the exception the call raised. -/
abbrev Reformulator := String → List Message → Except String String

/-- A record appended to `failed_reformulations` by
`extract_golden_questions`. -/
structure FailedReform where
  id : String
  conversation_id : String
  original_question : String
  failure_reason : String
  conversation_topic : String
  user_id : String
  created : Int
deriving DecidableEq, Repr

/-- The outcome of `extract_golden_questions` on one conversation, with two
ghost fields: `calls` counts the `reformulate_question_llm` invocations and
`assignedIds` lists, in processing order, the id assigned to every processed
user turn (whether it was emitted or recorded as failed). -/
structure ExtractOut where
  questions : List GoldenQuestion
  failed : List FailedReform
  calls : Nat
  assignedIds : List String
deriving DecidableEq, Repr

/-- The placeholder usage mode assigned at extraction time. -/
def placeholderUsageMode : UsageMode :=
  ⟨"single_document", "simple_qa", "prose"⟩

/-- The golden question built for one processed user turn. -/
def buildQuestion (conv : Conversation) (convFilters : List (String × List FOpt))
    (msg : Message) (i umi : Nat) (standalone : String) (ctx : List CtxMsg) :
    GoldenQuestion :=
  { id := generate_message_id conv.id umi
    question := standalone
    original_question := pyStrip msg.text
    conversation_id := conv.id
    context_messages := ctx
    has_retrieval := _check_has_retrieval conv.messages i
    usage_mode := placeholderUsageMode
    subject_topics := []
    metadata := ⟨conv.topic, conv.userId, msg.created⟩
    question_changed := decide (standalone ≠ pyStrip msg.text)
    filters := if convFilters = [] then none else some convFilters }

/-- The `context_msgs` list built in the reformulation branch: the last 3
previous messages, keeping those with non-empty text and a non-system role. -/
def buildContext (previous : List Message) : List CtxMsg :=
  ((lastN previous 3).filter
      (fun m => decide (pyStrip m.text ≠ "") && decide (m.role ≠ some "system"))).map
    (fun m => ⟨m.role, m.text⟩)

/-- The main loop of `extract_golden_questions` over `conv.messages`:
`i` is the absolute message index, `umi` the user-message index.  Non-user
messages and user messages with empty stripped text are skipped without
consuming an index; a processed turn at `i > 0` with an LLM client is sent
to the reformulation oracle (a failure is recorded and the turn excluded),
and otherwise the original text is passed through. -/
def extractLoop (conv : Conversation) (llm : Option Reformulator)
    (convFilters : List (String × List FOpt)) :
    List Message → Nat → Nat → ExtractOut
  | [], _, _ => ⟨[], [], 0, []⟩
  | msg :: rest, i, umi =>
    if msg.role ≠ some "user" then extractLoop conv llm convFilters rest (i + 1) umi
    else if pyStrip msg.text = "" then extractLoop conv llm convFilters rest (i + 1) umi
    else
      match llm with
      | some f =>
        if 0 < i then
          match f msg.text (conv.messages.take i) with
          | .error reason =>
            let rec0 : FailedReform :=
              ⟨generate_message_id conv.id umi, conv.id, pyStrip msg.text, reason,
               conv.topic, conv.userId, msg.created⟩
            let r := extractLoop conv llm convFilters rest (i + 1) (umi + 1)
            ⟨r.questions, rec0 :: r.failed, r.calls + 1,
             generate_message_id conv.id umi :: r.assignedIds⟩
          | .ok standalone =>
            let q := buildQuestion conv convFilters msg i umi standalone
              (buildContext (conv.messages.take i))
            let r := extractLoop conv llm convFilters rest (i + 1) (umi + 1)
            ⟨q :: r.questions, r.failed, r.calls + 1,
             generate_message_id conv.id umi :: r.assignedIds⟩
        else
          let q := buildQuestion conv convFilters msg i umi (pyStrip msg.text) []
          let r := extractLoop conv llm convFilters rest (i + 1) (umi + 1)
          ⟨q :: r.questions, r.failed, r.calls,
           generate_message_id conv.id umi :: r.assignedIds⟩
      | none =>
        let q := buildQuestion conv convFilters msg i umi (pyStrip msg.text) []
        let r := extractLoop conv llm convFilters rest (i + 1) (umi + 1)
        ⟨q :: r.questions, r.failed, r.calls,
         generate_message_id conv.id umi :: r.assignedIds⟩

/-- `extract_golden_questions` (extractor.py). -/
def extract_golden_questions (conv : Conversation) (llm : Option Reformulator) :
    ExtractOut :=
  extractLoop conv llm (extract_filters conv.messages) conv.messages 0 0

/-! ## Usage-mode categorizer retry loop (`categorizer_llm.py`) -/

/-- The classified outcome of one chat completion inside
`categorize_question_llm` (the string-level JSON repair and parse are
abstracted into the class of the completion): a valid classification with
all three required keys, valid JSON missing a required key, an empty
completion, invalid JSON (`json.JSONDecodeError`), a `RateLimitError` from
the call, or some other exception. -/
inductive CatCompletion where
  | valid (um : UsageMode)
  | missingFields
  | empty
  | invalidJson
  | rateLimit
  | otherError
deriving DecidableEq, Repr

/-- The observable outcome of one retry loop: the returned value (`none`
when the loop raised), the number of chat calls made, and the sleeps
performed, in seconds, in order. -/
structure LlmRun (α : Type) where
  result : Option α
  calls : Nat
  sleeps : List Nat
deriving DecidableEq, Repr

/-- The body of `for attempt in range(max_retries + 1)` in
`categorize_question_llm`.  Empty completions and missing required keys
raise `ValueError`, which the generic `except Exception` handler re-raises
only when `attempt == max_retries - 1` (and otherwise retries without
sleeping); invalid JSON is re-raised when `attempt == max_retries`
(otherwise retried without sleeping); a rate limit sleeps
`2 ** (attempt + 1)` seconds and retries while `attempt < max_retries`. -/
def catGo (sched : Nat → CatCompletion) (maxR : Nat) :
    Nat → Nat → Nat → List Nat → LlmRun UsageMode
  | 0, _, calls, sleeps => ⟨none, calls, sleeps⟩
  | rem + 1, attempt, calls, sleeps =>
    match sched attempt with
    | .valid um => ⟨some um, calls + 1, sleeps⟩
    | .missingFields =>
      if attempt + 1 = maxR then ⟨none, calls + 1, sleeps⟩
      else catGo sched maxR rem (attempt + 1) (calls + 1) sleeps
    | .empty =>
      if attempt + 1 = maxR then ⟨none, calls + 1, sleeps⟩
      else catGo sched maxR rem (attempt + 1) (calls + 1) sleeps
    | .otherError =>
      if attempt + 1 = maxR then ⟨none, calls + 1, sleeps⟩
      else catGo sched maxR rem (attempt + 1) (calls + 1) sleeps
    | .invalidJson =>
      if attempt = maxR then ⟨none, calls + 1, sleeps⟩
      else catGo sched maxR rem (attempt + 1) (calls + 1) sleeps
    | .rateLimit =>
      if attempt < maxR then
        catGo sched maxR rem (attempt + 1) (calls + 1) (sleeps ++ [2 ^ (attempt + 1)])
      else ⟨none, calls + 1, sleeps⟩

/-- `categorize_question_llm` (categorizer_llm.py), as a run of its retry
loop against a schedule of completion outcomes. -/
def categorize_question_llm (sched : Nat → CatCompletion) (max_retries : Nat) :
    LlmRun UsageMode :=
  catGo sched max_retries (max_retries + 1) 0 0 []

/-! ## Reformulator retry loop (`reformulator_llm.py`) -/

/-- The classified outcome of one chat completion inside
`reformulate_question_llm`: a JSON object with a `reformulated` field (whose
stripped value is returned, or treated as a failure when empty), a response
truncated by the token limit, an empty completion, invalid JSON, a missing
`reformulated` field, or an `APIError` from the call. -/
inductive RefCompletion where
  | ok (reformulated : String)
  | truncated
  | empty
  | invalidJson
  | missingReformulated
  | apiError
deriving DecidableEq, Repr

/-- The try-body of one attempt of `reformulate_question_llm` up to its
first raise: `some` of the stripped reformulated question on success,
`none` when the attempt raises (truncated response, empty completion,
invalid JSON, missing `reformulated` field, empty reformulated question,
or an `APIError` from the call). -/
def reformAttemptResult (c : RefCompletion) : Option String :=
  match c with
  | .ok s => if pyStrip s = "" then none else some (pyStrip s)
  | .truncated => none
  | .empty => none
  | .invalidJson => none
  | .missingReformulated => none
  | .apiError => none

/-- The body of `for attempt in range(max_retries + 1)` in
`reformulate_question_llm`.  Both the `APIError` handler and the generic
`except Exception` handler behave identically — re-raise when
`attempt == max_retries`, otherwise sleep `2 ** (attempt + 1)` seconds and
retry — so every raising attempt goes through the same branch. -/
def reformGo (sched : Nat → RefCompletion) (maxR : Nat) :
    Nat → Nat → Nat → List Nat → LlmRun String
  | 0, _, calls, sleeps => ⟨none, calls, sleeps⟩
  | rem + 1, attempt, calls, sleeps =>
    match reformAttemptResult (sched attempt) with
    | some v => ⟨some v, calls + 1, sleeps⟩
    | none =>
      if attempt = maxR then ⟨none, calls + 1, sleeps⟩
      else reformGo sched maxR rem (attempt + 1) (calls + 1) (sleeps ++ [2 ^ (attempt + 1)])

/-- `reformulate_question_llm` (reformulator_llm.py), as a run of its retry
loop against a schedule of completion outcomes. -/
def reformulate_question_llm (sched : Nat → RefCompletion) (max_retries : Nat) :
    LlmRun String :=
  reformGo sched max_retries (max_retries + 1) 0 0 []

/-! ## Side-channel save functions (`extractor.py`, `main.py`) -/

/-- `_save_failed_reformulations` (extractor.py): unconditionally opens the
file in mode `"w"` and dumps the record list, also when it is empty. -/
def _save_failed_reformulations (failed_reformulations : List FailedReform) :
    WriteMode × List FailedReform :=
  (WriteMode.overwrite, failed_reformulations)

/-- `_save_failed_categorizations` (main.py), used for both the
failed-usage-mode and the failed-subject-topics files: unconditionally opens
the file in mode `"w"` and writes one line per record, also when the list is
empty. -/
def _save_failed_categorizations (failed_questions : List GoldenQuestion) :
    WriteMode × List GoldenQuestion :=
  (WriteMode.overwrite, failed_questions)

/-! ## Concrete test data shared by witnesses and counterexamples -/

/-- A minimal golden question whose id and texts are the given string. -/
def mkQ (s : String) : GoldenQuestion :=
  ⟨s, s, s, "c", [], false, placeholderUsageMode, [], ⟨"t", "u", 0⟩, false, none⟩

/-- A pairwise similarity assignment on four questions, realizable by genuine
unit vectors: with θ the angle with cosine 19/20, take
e1 = (1,0,0), e2 = (19/20, sin θ, 0), e3 = (19/20, −sin θ, 0) and
e0 = (22/25, 0, z) with z ≥ 0 and unit norm; then
cos(e0,e1) = 22/25, cos(e0,e2) = cos(e0,e3) = 22/25·19/20 = 209/250,
cos(e1,e2) = cos(e1,e3) = 19/20 and cos(e2,e3) = 2·(19/20)² − 1 = 161/200.
Only the entries with i < j are consulted by the sweep. -/
def simC2 : Nat → Nat → ℚ := fun i j =>
  if i = 0 ∧ j = 1 then mkRat 22 25
  else if i = 0 ∧ j = 2 then mkRat 209 250
  else if i = 0 ∧ j = 3 then mkRat 209 250
  else if i = 1 ∧ j = 2 then mkRat 19 20
  else if i = 1 ∧ j = 3 then mkRat 19 20
  else if i = 2 ∧ j = 3 then mkRat 161 200
  else 0

/-- Four questions with pairwise distinct normalized texts. -/
def qs4 : List GoldenQuestion := [mkQ "a", mkQ "b", mkQ "c", mkQ "d"]

/-- The a-b-c similarity configuration of the spec example (realizable by
unit vectors at angles −θ, 0, θ with cos θ = 19/20):
sim(a,b) = sim(b,c) = 19/20 and sim(a,c) = 2·(19/20)² − 1 = 161/200. -/
def simABC : Nat → Nat → ℚ := fun i j =>
  if i = 0 ∧ j = 1 then mkRat 19 20
  else if i = 1 ∧ j = 2 then mkRat 19 20
  else if i = 0 ∧ j = 2 then mkRat 161 200
  else 0

/-- The number of questions a deduplication run retained. -/
def dedupResultLength : Except String DedupRun → Nat
  | .ok r => r.result.length
  | .error _ => 0

/-- A system message followed by a user message: the first user turn of the
conversation is not the first message. -/
def sysMsg : Message := ⟨"m0", "Kontekst her", some "system", 0, [], none⟩

/-- The first user turn of the test conversations. -/
def userMsg1 : Message := ⟨"m1", "Hva er det?", some "user", 1, [], none⟩

/-- A conversation whose first user turn is preceded by a system message. -/
def conv1 : Conversation := ⟨"cid", "topic", "e", "u", 0, [sysMsg, userMsg1]⟩

/-- A conversation with a leading user turn, a system message, an empty user
message and a final user turn. -/
def conv2 : Conversation :=
  ⟨"cid", "topic", "e", "u", 0,
   [userMsg1, sysMsg, ⟨"m2", "", some "user", 2, [], none⟩,
    ⟨"m3", "Og mer?", some "user", 3, [], none⟩]⟩

/-- A reformulation oracle that always rewrites to a fixed string. -/
def oracleOk : Reformulator := fun _ _ => .ok "OMSKREVET"

/-- A reformulation oracle that always fails. -/
def oracleFail : Reformulator := fun _ _ => .error "boom"

/-- A completion schedule whose first attempt hits an API error and whose
later attempts succeed. -/
def sched7 : Nat → RefCompletion :=
  fun n => if n = 0 then .apiError else .ok "Hva er budsjettet til Digdir?"

/-- A message carrying a filter selection with the document-type typo, its
correction, a non-string option, and a duplicated organisation. -/
def fvMsg : Message :=
  ⟨"f", "x", some "user", 0, [],
   some ⟨[⟨some "type", [.str "Årsrapprt", .str "Årsrapport", .other 0]⟩,
          ⟨some "orgs_long", [.str "Digdir", .str "Digdir"]⟩]⟩⟩

/-! ## Lemmas about the exact-match stage -/

theorem findSeen_append (s : List (String × GoldenQuestion)) (k : String)
    (v : GoldenQuestion) (n : String) :
    findSeen (s ++ [(k, v)]) n =
      match findSeen s n with
      | some r => some r
      | none => if k = n then some v else none := by
  induction s with
  | nil => rfl
  | cons p rest ih =>
    by_cases h : p.1 = n
    · simp [findSeen, h]
    · simp [findSeen, h, ih]

/-- Every question kept by `exactGo` has a normalized form that was not in
the `seen` map it started from. -/
theorem exactGo_fresh (l : List GoldenQuestion) :
    ∀ seen, ∀ q ∈ (exactGo seen l).1,
      findSeen seen (normalize_text q.question) = none := by
  induction l with
  | nil => intro seen q hq; simp [exactGo] at hq
  | cons q0 rest ih =>
    intro seen q hq
    by_cases h : findSeen seen (normalize_text q0.question) = none
    · simp only [exactGo, h] at hq
      rcases List.mem_cons.mp hq with hq | hq
      · rw [hq]; exact h
      · have h2 := ih (seen ++ [(normalize_text q0.question, q0)]) q hq
        rw [findSeen_append] at h2
        cases h3 : findSeen seen (normalize_text q.question) with
        | none => rfl
        | some r => rw [h3] at h2; simp at h2
    · rcases h4 : findSeen seen (normalize_text q0.question) with _ | r
      · exact absurd h4 h
      · simp only [exactGo, h4] at hq
        exact ih seen q hq

/-- The normalized forms of the questions kept by `exactGo` are pairwise
distinct. -/
theorem exactGo_nodup (l : List GoldenQuestion) :
    ∀ seen, ((exactGo seen l).1.map (fun q => normalize_text q.question)).Nodup := by
  induction l with
  | nil => intro seen; simp [exactGo]
  | cons q0 rest ih =>
    intro seen
    rcases h4 : findSeen seen (normalize_text q0.question) with _ | r
    · simp only [exactGo, h4, List.map_cons]
      refine List.nodup_cons.mpr ⟨?_, ih _⟩
      intro hmem
      rcases List.mem_map.mp hmem with ⟨q, hq, hkey⟩
      have h2 := exactGo_fresh rest _ q hq
      rw [findSeen_append, hkey] at h2
      rcases h3 : findSeen seen (normalize_text q0.question) with _ | r2
      · rw [h3] at h2; simp at h2
      · rw [h4] at h3; cases h3
    · simp only [exactGo, h4]
      exact ih seen

/-- On an input whose normalized forms are fresh and pairwise distinct,
`exactGo` keeps everything and records no duplicate. -/
theorem exactGo_of_fresh_nodup (l : List GoldenQuestion) :
    ∀ seen,
      (∀ q ∈ l, findSeen seen (normalize_text q.question) = none) →
      (l.map (fun q => normalize_text q.question)).Nodup →
      exactGo seen l = (l, []) := by
  induction l with
  | nil => intro seen _ _; rfl
  | cons q0 rest ih =>
    intro seen hfresh hnodup
    simp only [List.map_cons, List.nodup_cons] at hnodup
    have h0 : findSeen seen (normalize_text q0.question) = none :=
      hfresh q0 (List.mem_cons_self q0 rest)
    simp only [exactGo, h0]
    have hrest : ∀ q ∈ rest,
        findSeen (seen ++ [(normalize_text q0.question, q0)])
          (normalize_text q.question) = none := by
      intro q hq
      rw [findSeen_append, hfresh q (List.mem_cons_of_mem _ hq)]
      have hne : normalize_text q0.question ≠ normalize_text q.question := by
        intro heq
        exact hnodup.1 (by rw [heq]; exact List.mem_map_of_mem _ hq)
      simp [hne]
    rw [ih _ hrest hnodup.2]

/-- Claim C6: the exact-match deduplication stage is idempotent — applying
it to its own output returns that output unchanged (and records no
duplicate). -/
theorem C6_exact_dedup_idempotent (questions : List GoldenQuestion) :
    exactStage (exactStage questions).1 = ((exactStage questions).1, []) := by
  unfold exactStage
  exact exactGo_of_fresh_nodup _ [] (fun q _ => rfl) (exactGo_nodup questions [])

/-! ## Lemmas about the usage-mode categorizer retry loop -/

/-- A completion class handled by the generic exception handler of
`categorize_question_llm` (missing required keys, empty completion, or any
other non-rate-limit error). -/
def genericCat (c : CatCompletion) : Prop :=
  c = CatCompletion.missingFields ∨ c = CatCompletion.empty ∨ c = CatCompletion.otherError

theorem catGo_generic (sched : Nat → CatCompletion) (maxR : Nat)
    (hs : ∀ a, genericCat (sched a)) :
    ∀ rem att calls sleeps, att + rem = maxR + 1 → att ≤ maxR →
      catGo sched maxR rem att calls sleeps =
        ⟨none, calls + max (maxR - att) 1, sleeps⟩ := by
  intro rem
  induction rem with
  | zero => intro att calls sleeps h1 h2; omega
  | succ rem ih =>
    intro att calls sleeps h1 h2
    have hstep : catGo sched maxR (rem + 1) att calls sleeps =
        (if att + 1 = maxR then (⟨none, calls + 1, sleeps⟩ : LlmRun UsageMode)
         else catGo sched maxR rem (att + 1) (calls + 1) sleeps) := by
      rcases hs att with h | h | h <;> rw [catGo, h]
    rw [hstep]
    by_cases hc : att + 1 = maxR
    · rw [if_pos hc]
      have he : calls + 1 = calls + max (maxR - att) 1 := by omega
      rw [he]
    · rw [if_neg hc]
      by_cases hm : att = maxR
      · have hrem : rem = 0 := by omega
        subst hrem
        rw [catGo]
        have he : calls + 1 = calls + max (maxR - att) 1 := by omega
        rw [he]
      · rw [ih (att + 1) (calls + 1) sleeps (by omega) (by omega)]
        have he : calls + 1 + max (maxR - (att + 1)) 1 = calls + max (maxR - att) 1 := by
          omega
        rw [he]

theorem catGo_invalidJson (maxR : Nat) :
    ∀ rem att calls sleeps, att + rem = maxR + 1 → att ≤ maxR →
      catGo (fun _ => CatCompletion.invalidJson) maxR rem att calls sleeps =
        ⟨none, calls + (maxR - att) + 1, sleeps⟩ := by
  intro rem
  induction rem with
  | zero => intro att calls sleeps h1 h2; omega
  | succ rem ih =>
    intro att calls sleeps h1 h2
    rw [catGo]
    by_cases hc : att = maxR
    · rw [if_pos hc]
      have : maxR - att = 0 := by omega
      rw [this]
    · rw [if_neg hc, ih (att + 1) (calls + 1) sleeps (by omega) (by omega)]
      have : calls + 1 + (maxR - (att + 1)) + 1 = calls + (maxR - att) + 1 := by omega
      rw [this]

theorem catGo_rateLimit (maxR : Nat) :
    ∀ rem att calls sleeps, att + rem = maxR + 1 → att ≤ maxR →
      catGo (fun _ => CatCompletion.rateLimit) maxR rem att calls sleeps =
        ⟨none, calls + (maxR - att) + 1,
         sleeps ++ (List.range' (att + 1) (maxR - att)).map (fun k => 2 ^ k)⟩ := by
  intro rem
  induction rem with
  | zero => intro att calls sleeps h1 h2; omega
  | succ rem ih =>
    intro att calls sleeps h1 h2
    have hred : catGo (fun _ => CatCompletion.rateLimit) maxR (rem + 1) att calls sleeps =
        if att < maxR then
          catGo (fun _ => CatCompletion.rateLimit) maxR rem (att + 1) (calls + 1)
            (sleeps ++ [2 ^ (att + 1)])
        else ⟨none, calls + 1, sleeps⟩ := rfl
    rw [hred]
    by_cases hc : att < maxR
    · rw [if_pos hc, ih (att + 1) (calls + 1) _ (by omega) (by omega)]
      have hcalls : calls + 1 + (maxR - (att + 1)) + 1 = calls + (maxR - att) + 1 := by
        omega
      have hl : (sleeps ++ [2 ^ (att + 1)]) ++
            (List.range' (att + 1 + 1) (maxR - (att + 1))).map (fun k => 2 ^ k) =
          sleeps ++ (List.range' (att + 1) (maxR - att)).map (fun k => 2 ^ k) := by
        have hn : maxR - att = (maxR - (att + 1)) + 1 := by omega
        rw [hn, List.range'_succ]
        simp
      rw [hcalls, hl]
    · rw [if_neg hc]
      have h3 : maxR - att = 0 := by omega
      rw [h3]
      simp

/-- Claim C3 (amended): completions that are valid JSON missing a required
key, empty completions, and other non-rate-limit errors are caught by the
generic exception handler and retried without backoff until the
second-to-last attempt — with retry limit r the categorizer makes
max(r, 1) chat calls before failing, so for r ≥ 2 further calls are made;
invalid-JSON completions are retried without any backoff sleep (r + 1 calls,
no sleep); only rate-limit errors sleep, 2^(attempt+1) seconds after the
zero-based attempt. -/
theorem C3_categorizer_retry_policy (r : Nat) :
    categorize_question_llm (fun _ => CatCompletion.missingFields) r =
      ⟨none, max r 1, []⟩ ∧
    categorize_question_llm (fun _ => CatCompletion.empty) r =
      ⟨none, max r 1, []⟩ ∧
    categorize_question_llm (fun _ => CatCompletion.invalidJson) r =
      ⟨none, r + 1, []⟩ ∧
    categorize_question_llm (fun _ => CatCompletion.rateLimit) r =
      ⟨none, r + 1, (List.range r).map (fun k => 2 ^ (k + 1))⟩ := by
  refine ⟨?_, ?_, ?_, ?_⟩
  · rw [categorize_question_llm,
      catGo_generic _ r (fun a => Or.inl rfl) (r + 1) 0 0 [] (by omega) (by omega)]
    simp
  · rw [categorize_question_llm,
      catGo_generic _ r (fun a => Or.inr (Or.inl rfl)) (r + 1) 0 0 [] (by omega) (by omega)]
    simp
  · rw [categorize_question_llm, catGo_invalidJson r (r + 1) 0 0 [] (by omega) (by omega)]
    simp
  · rw [categorize_question_llm, catGo_rateLimit r (r + 1) 0 0 [] (by omega) (by omega)]
    have h : List.range' 1 (r - 0) = (List.range r).map (1 + ·) := by
      simp [List.range'_eq_map_range]
    simp only [Nat.sub_zero] at h ⊢
    rw [h, List.map_map]
    have : ((fun k => 2 ^ k) ∘ (1 + ·)) = fun k : Nat => 2 ^ (k + 1) := by
      funext k
      simp [Nat.add_comm]
    rw [this]
    simp

/-- Claim C3, counterexample: with retry limit 2 a completion that is valid
JSON missing a required key leads to a second chat call (the claim says the
item fails immediately with no further call), and with retry limit 1 an
invalid-JSON completion is retried with no backoff sleep at all (the claim
says invalid JSON is retried with backoff). -/
theorem C3_counterexample :
    (categorize_question_llm (fun _ => CatCompletion.missingFields) 2).calls = 2 ∧
    ¬ (categorize_question_llm (fun _ => CatCompletion.missingFields) 2).calls = 1 ∧
    (categorize_question_llm (fun _ => CatCompletion.invalidJson) 1).calls = 2 ∧
    (categorize_question_llm (fun _ => CatCompletion.invalidJson) 1).sleeps = [] := by
  refine ⟨rfl, by decide, rfl, rfl⟩

/-! ## Step lemmas for the extraction loop -/

theorem meaningfulUser_eq_true (m : Message) :
    meaningfulUser m = true ↔ (m.role = some "user" ∧ pyStrip m.text ≠ "") := by
  simp [meaningfulUser]

theorem extractLoop_skip (conv : Conversation) (llm : Option Reformulator)
    (fl : List (String × List FOpt)) (msg : Message) (rest : List Message)
    (i umi : Nat) (h : ¬ (msg.role = some "user" ∧ pyStrip msg.text ≠ "")) :
    extractLoop conv llm fl (msg :: rest) i umi =
      extractLoop conv llm fl rest (i + 1) umi := by
  simp only [extractLoop]
  by_cases h1 : msg.role = some "user"
  · have h2 : pyStrip msg.text = "" := by
      by_contra h2
      exact h ⟨h1, h2⟩
    rw [if_neg (by simp [h1]), if_pos h2]
  · rw [if_pos (by simp [h1])]

theorem extractLoop_pass (conv : Conversation) (llm : Option Reformulator)
    (fl : List (String × List FOpt)) (msg : Message) (rest : List Message)
    (i umi : Nat) (h1 : msg.role = some "user") (h2 : pyStrip msg.text ≠ "")
    (h3 : llm = none ∨ i = 0) :
    extractLoop conv llm fl (msg :: rest) i umi =
      ⟨buildQuestion conv fl msg i umi (pyStrip msg.text) [] ::
          (extractLoop conv llm fl rest (i + 1) (umi + 1)).questions,
        (extractLoop conv llm fl rest (i + 1) (umi + 1)).failed,
        (extractLoop conv llm fl rest (i + 1) (umi + 1)).calls,
        generate_message_id conv.id umi ::
          (extractLoop conv llm fl rest (i + 1) (umi + 1)).assignedIds⟩ := by
  simp only [extractLoop]
  rw [if_neg (by simp [h1]), if_neg h2]
  rcases llm with _ | f
  · rfl
  · rcases h3 with h3 | h3
    · cases h3
    · subst h3
      rfl

theorem extractLoop_reform_error (conv : Conversation) (f : Reformulator)
    (fl : List (String × List FOpt)) (msg : Message) (rest : List Message)
    (i umi : Nat) (reason : String) (h1 : msg.role = some "user")
    (h2 : pyStrip msg.text ≠ "") (hi : 0 < i)
    (ho : f msg.text (conv.messages.take i) = Except.error reason) :
    extractLoop conv (some f) fl (msg :: rest) i umi =
      ⟨(extractLoop conv (some f) fl rest (i + 1) (umi + 1)).questions,
        (⟨generate_message_id conv.id umi, conv.id, pyStrip msg.text, reason,
            conv.topic, conv.userId, msg.created⟩ : FailedReform) ::
          (extractLoop conv (some f) fl rest (i + 1) (umi + 1)).failed,
        (extractLoop conv (some f) fl rest (i + 1) (umi + 1)).calls + 1,
        generate_message_id conv.id umi ::
          (extractLoop conv (some f) fl rest (i + 1) (umi + 1)).assignedIds⟩ := by
  simp only [extractLoop]
  rw [if_neg (by simp [h1]), if_neg h2]
  show (if 0 < i then _ else _) = _
  rw [if_pos hi, ho]

theorem extractLoop_reform_ok (conv : Conversation) (f : Reformulator)
    (fl : List (String × List FOpt)) (msg : Message) (rest : List Message)
    (i umi : Nat) (standalone : String) (h1 : msg.role = some "user")
    (h2 : pyStrip msg.text ≠ "") (hi : 0 < i)
    (ho : f msg.text (conv.messages.take i) = Except.ok standalone) :
    extractLoop conv (some f) fl (msg :: rest) i umi =
      ⟨buildQuestion conv fl msg i umi standalone
            (buildContext (conv.messages.take i)) ::
          (extractLoop conv (some f) fl rest (i + 1) (umi + 1)).questions,
        (extractLoop conv (some f) fl rest (i + 1) (umi + 1)).failed,
        (extractLoop conv (some f) fl rest (i + 1) (umi + 1)).calls + 1,
        generate_message_id conv.id umi ::
          (extractLoop conv (some f) fl rest (i + 1) (umi + 1)).assignedIds⟩ := by
  simp only [extractLoop]
  rw [if_neg (by simp [h1]), if_neg h2]
  show (if 0 < i then _ else _) = _
  rw [if_pos hi, ho]

/-! ## Main lemmas about the extraction loop -/

/-- Emitted questions plus failure records partition the processed user
turns: their counts add up to the number of user messages with non-empty
text. -/
theorem extractLoop_count (conv : Conversation) (llm : Option Reformulator)
    (fl : List (String × List FOpt)) :
    ∀ msgs (i umi : Nat),
      (extractLoop conv llm fl msgs i umi).questions.length +
          (extractLoop conv llm fl msgs i umi).failed.length =
        msgs.countP meaningfulUser := by
  intro msgs
  induction msgs with
  | nil => intro i umi; simp [extractLoop]
  | cons msg rest ih =>
    intro i umi
    rw [List.countP_cons]
    by_cases hm : msg.role = some "user" ∧ pyStrip msg.text ≠ ""
    · have hb : meaningfulUser msg = true := (meaningfulUser_eq_true msg).mpr hm
      rw [hb, if_pos rfl]
      rcases llm with _ | f
      · rw [extractLoop_pass conv none fl msg rest i umi hm.1 hm.2 (Or.inl rfl)]
        simp only [List.length_cons]
        rw [← ih (i + 1) (umi + 1)]
        omega
      · by_cases hi : 0 < i
        · cases ho : f msg.text (conv.messages.take i) with
          | error reason =>
            rw [extractLoop_reform_error conv f fl msg rest i umi reason hm.1 hm.2 hi ho]
            simp only [List.length_cons]
            rw [← ih (i + 1) (umi + 1)]
            omega
          | ok s =>
            rw [extractLoop_reform_ok conv f fl msg rest i umi s hm.1 hm.2 hi ho]
            simp only [List.length_cons]
            rw [← ih (i + 1) (umi + 1)]
            omega
        · rw [extractLoop_pass conv (some f) fl msg rest i umi hm.1 hm.2
            (Or.inr (by omega))]
          simp only [List.length_cons]
          rw [← ih (i + 1) (umi + 1)]
          omega
    · have hb : meaningfulUser msg = false := by
        rw [← Bool.not_eq_true, meaningfulUser_eq_true]
        exact hm
      rw [hb, extractLoop_skip conv llm fl msg rest i umi hm, ih (i + 1) umi]
      simp

/-- The ids assigned while processing `msgs` starting at user-message index
`umi` are exactly the ids built from the consecutive indices
`umi, umi + 1, …`, one per user message with non-empty text. -/
theorem extractLoop_assignedIds (conv : Conversation) (llm : Option Reformulator)
    (fl : List (String × List FOpt)) :
    ∀ msgs (i umi : Nat),
      (extractLoop conv llm fl msgs i umi).assignedIds =
        (List.range' umi (msgs.countP meaningfulUser)).map
          (generate_message_id conv.id) := by
  intro msgs
  induction msgs with
  | nil => intro i umi; simp [extractLoop]
  | cons msg rest ih =>
    intro i umi
    rw [List.countP_cons]
    by_cases hm : msg.role = some "user" ∧ pyStrip msg.text ≠ ""
    · have hb : meaningfulUser msg = true := (meaningfulUser_eq_true msg).mpr hm
      rw [hb, if_pos rfl]
      have hrange : List.range' umi (rest.countP meaningfulUser + 1) =
          umi :: List.range' (umi + 1) (rest.countP meaningfulUser) :=
        List.range'_succ umi (rest.countP meaningfulUser) 1
      rcases llm with _ | f
      · rw [extractLoop_pass conv none fl msg rest i umi hm.1 hm.2 (Or.inl rfl)]
        rw [hrange, List.map_cons, ih (i + 1) (umi + 1)]
      · by_cases hi : 0 < i
        · cases ho : f msg.text (conv.messages.take i) with
          | error reason =>
            rw [extractLoop_reform_error conv f fl msg rest i umi reason hm.1 hm.2 hi ho]
            rw [hrange, List.map_cons, ih (i + 1) (umi + 1)]
          | ok s =>
            rw [extractLoop_reform_ok conv f fl msg rest i umi s hm.1 hm.2 hi ho]
            rw [hrange, List.map_cons, ih (i + 1) (umi + 1)]
        · rw [extractLoop_pass conv (some f) fl msg rest i umi hm.1 hm.2
            (Or.inr (by omega))]
          rw [hrange, List.map_cons, ih (i + 1) (umi + 1)]
    · have hb : meaningfulUser msg = false := by
        rw [← Bool.not_eq_true, meaningfulUser_eq_true]
        exact hm
      rw [hb, extractLoop_skip conv llm fl msg rest i umi hm, ih (i + 1) umi]
      simp

/-- The id sequences of the emitted questions and of the failure records are
both sublists of the assigned-id trace. -/
theorem extractLoop_ids_sublist (conv : Conversation) (llm : Option Reformulator)
    (fl : List (String × List FOpt)) :
    ∀ msgs (i umi : Nat),
      ((extractLoop conv llm fl msgs i umi).questions.map
          GoldenQuestion.id).Sublist
          (extractLoop conv llm fl msgs i umi).assignedIds ∧
      ((extractLoop conv llm fl msgs i umi).failed.map FailedReform.id).Sublist
          (extractLoop conv llm fl msgs i umi).assignedIds := by
  intro msgs
  induction msgs with
  | nil => intro i umi; simp [extractLoop]
  | cons msg rest ih =>
    intro i umi
    by_cases hm : msg.role = some "user" ∧ pyStrip msg.text ≠ ""
    · rcases llm with _ | f
      · rw [extractLoop_pass conv none fl msg rest i umi hm.1 hm.2 (Or.inl rfl)]
        exact ⟨List.Sublist.cons₂ _ (ih (i + 1) (umi + 1)).1,
          List.Sublist.cons _ (ih (i + 1) (umi + 1)).2⟩
      · by_cases hi : 0 < i
        · cases ho : f msg.text (conv.messages.take i) with
          | error reason =>
            rw [extractLoop_reform_error conv f fl msg rest i umi reason hm.1 hm.2 hi ho]
            exact ⟨List.Sublist.cons _ (ih (i + 1) (umi + 1)).1,
              List.Sublist.cons₂ _ (ih (i + 1) (umi + 1)).2⟩
          | ok s =>
            rw [extractLoop_reform_ok conv f fl msg rest i umi s hm.1 hm.2 hi ho]
            exact ⟨List.Sublist.cons₂ _ (ih (i + 1) (umi + 1)).1,
              List.Sublist.cons _ (ih (i + 1) (umi + 1)).2⟩
        · rw [extractLoop_pass conv (some f) fl msg rest i umi hm.1 hm.2
            (Or.inr (by omega))]
          exact ⟨List.Sublist.cons₂ _ (ih (i + 1) (umi + 1)).1,
            List.Sublist.cons _ (ih (i + 1) (umi + 1)).2⟩
    · rw [extractLoop_skip conv llm fl msg rest i umi hm]
      exact ih (i + 1) umi

/-- When an LLM client is present, every processed user turn at an absolute
message index ≥ 1 performs exactly one reformulation call. -/
theorem extractLoop_calls (conv : Conversation) (f : Reformulator)
    (fl : List (String × List FOpt)) :
    ∀ msgs (i umi : Nat), 1 ≤ i →
      (extractLoop conv (some f) fl msgs i umi).calls =
        msgs.countP meaningfulUser := by
  intro msgs
  induction msgs with
  | nil => intro i umi hi; simp [extractLoop]
  | cons msg rest ih =>
    intro i umi hi
    rw [List.countP_cons]
    by_cases hm : msg.role = some "user" ∧ pyStrip msg.text ≠ ""
    · have hb : meaningfulUser msg = true := (meaningfulUser_eq_true msg).mpr hm
      rw [hb, if_pos rfl]
      cases ho : f msg.text (conv.messages.take i) with
      | error reason =>
        rw [extractLoop_reform_error conv f fl msg rest i umi reason hm.1 hm.2
          (by omega) ho]
        rw [ih (i + 1) (umi + 1) (by omega)]
      | ok s =>
        rw [extractLoop_reform_ok conv f fl msg rest i umi s hm.1 hm.2 (by omega) ho]
        rw [ih (i + 1) (umi + 1) (by omega)]
    · have hb : meaningfulUser msg = false := by
        rw [← Bool.not_eq_true, meaningfulUser_eq_true]
        exact hm
      rw [hb, extractLoop_skip conv (some f) fl msg rest i umi hm,
        ih (i + 1) umi (by omega)]
      simp

/-- Every failure record produced by the extraction loop carries the
conversation id, the trimmed original text of a non-empty user message of
the conversation, and the message of the exception the reformulation oracle
raised on that text. -/
theorem extractLoop_failed_provenance (conv : Conversation) (f : Reformulator)
    (fl : List (String × List FOpt)) :
    ∀ msgs (i umi : Nat), (∀ m ∈ msgs, m ∈ conv.messages) →
      ∀ rec ∈ (extractLoop conv (some f) fl msgs i umi).failed,
        rec.conversation_id = conv.id ∧
        ∃ msg, msg ∈ conv.messages ∧ msg.role = some "user" ∧
          pyStrip msg.text ≠ "" ∧ rec.original_question = pyStrip msg.text ∧
          ∃ ctx, f msg.text ctx = Except.error rec.failure_reason := by
  intro msgs
  induction msgs with
  | nil => intro i umi hsub rec hrec; simp [extractLoop] at hrec
  | cons msg rest ih =>
    intro i umi hsub rec hrec
    have hsub' : ∀ m ∈ rest, m ∈ conv.messages :=
      fun m hmem => hsub m (List.mem_cons_of_mem _ hmem)
    by_cases hm : msg.role = some "user" ∧ pyStrip msg.text ≠ ""
    · by_cases hi : 0 < i
      · cases ho : f msg.text (conv.messages.take i) with
        | error reason =>
          rw [extractLoop_reform_error conv f fl msg rest i umi reason hm.1 hm.2
            hi ho] at hrec
          rcases List.mem_cons.mp hrec with hrec | hrec
          · subst hrec
            exact ⟨rfl, msg, hsub msg (List.mem_cons_self _ _), hm.1, hm.2, rfl,
              conv.messages.take i, ho⟩
          · exact ih (i + 1) (umi + 1) hsub' rec hrec
        | ok s =>
          rw [extractLoop_reform_ok conv f fl msg rest i umi s hm.1 hm.2 hi ho] at hrec
          exact ih (i + 1) (umi + 1) hsub' rec hrec
      · rw [extractLoop_pass conv (some f) fl msg rest i umi hm.1 hm.2
          (Or.inr (by omega))] at hrec
        exact ih (i + 1) (umi + 1) hsub' rec hrec
    · rw [extractLoop_skip conv (some f) fl msg rest i umi hm] at hrec
      exact ih (i + 1) umi hsub' rec hrec

/-! ## Claims C9, C4 and C7 -/

/-- Claim C9: the zero-based index embedded in `GoldenQuestion.id` counts
only user messages with non-empty text — an empty or whitespace user
message is skipped without consuming an index, while every processed user
turn (whether its reformulation succeeds or fails) consumes exactly one
index; the assigned ids are the consecutive ids `conv.id_0, conv.id_1, …`,
one per non-empty user message, and the id lists of the emitted questions
and of the failure records are both sublists of that trace, so earlier
failures leave later ids unchanged while empty user turns shift them. -/
theorem C9_user_turn_indexing (conv : Conversation) (llm : Option Reformulator) :
    (extract_golden_questions conv llm).assignedIds =
      (List.range (conv.messages.countP meaningfulUser)).map
        (generate_message_id conv.id) ∧
    ((extract_golden_questions conv llm).questions.map GoldenQuestion.id).Sublist
      (extract_golden_questions conv llm).assignedIds ∧
    ((extract_golden_questions conv llm).failed.map FailedReform.id).Sublist
      (extract_golden_questions conv llm).assignedIds := by
  refine ⟨?_, (extractLoop_ids_sublist conv llm _ conv.messages 0 0).1,
    (extractLoop_ids_sublist conv llm _ conv.messages 0 0).2⟩
  rw [extract_golden_questions,
    extractLoop_assignedIds conv llm _ conv.messages 0 0,
    List.range_eq_range' (conv.messages.countP meaningfulUser)]

/-- Claim C4 (amended): a first user turn is passed through unchanged —
emitted with the original stripped text, an unset changed flag, the id of
index 0 and no context — without any reformulation call only when it is the
very first message of the conversation; every non-empty user message of the
remaining conversation (that is, every user turn preceded by at least one
message) triggers exactly one reformulation call. -/
theorem C4_first_turn_passthrough (conv : Conversation) (f : Reformulator)
    (msg : Message) (rest : List Message) (hmsgs : conv.messages = msg :: rest)
    (hrole : msg.role = some "user") (htext : pyStrip msg.text ≠ "") :
    ∃ q, (extract_golden_questions conv (some f)).questions.head? = some q ∧
      q.question = pyStrip msg.text ∧ q.question_changed = false ∧
      q.id = generate_message_id conv.id 0 ∧ q.context_messages = [] ∧
      (extract_golden_questions conv (some f)).calls =
        rest.countP meaningfulUser := by
  rw [extract_golden_questions, hmsgs]
  rw [extractLoop_pass conv (some f) _ msg rest 0 0 hrole htext (Or.inr rfl)]
  refine ⟨_, rfl, rfl, ?_, rfl, rfl, ?_⟩
  · simp [buildQuestion]
  · exact extractLoop_calls conv f _ rest 1 1 (le_refl 1)

/-- A conversation whose first message is already a user turn, followed by a
second user turn. -/
def firstMsg3 : Message := ⟨"n1", "Hva er budsjettet?", some "user", 0, [], none⟩

/-- The tail of `conv3`: one further user turn. -/
def rest3 : List Message := [⟨"n2", "Og i fjor?", some "user", 1, [], none⟩]

/-- A conversation that opens directly with a user turn. -/
def conv3 : Conversation := ⟨"w", "t", "e", "u", 0, firstMsg3 :: rest3⟩

/-- Claim C4, witness: on a conversation whose first message is a non-empty
user turn, the pass-through theorem applies — the first emitted question is
the original text, unchanged, with id index 0, and exactly one
reformulation call is made for the one remaining user turn. -/
theorem C4_witness :
    ∃ q, (extract_golden_questions conv3 (some oracleOk)).questions.head? = some q ∧
      q.question = pyStrip firstMsg3.text ∧ q.question_changed = false ∧
      q.id = generate_message_id conv3.id 0 ∧ q.context_messages = [] ∧
      (extract_golden_questions conv3 (some oracleOk)).calls =
        rest3.countP meaningfulUser :=
  C4_first_turn_passthrough conv3 oracleOk firstMsg3 rest3 rfl rfl (by decide)

/-- Claim C4, counterexample: in `conv1` the first user turn is preceded by
a system message; it is emitted with the reformulated text `"OMSKREVET"`,
not with its original text `"Hva er det?"`, and one LLM reformulation call
is made for it — contradicting the claim that the first user turn is passed
through unchanged with no LLM call regardless of preceding messages. -/
theorem C4_counterexample :
    (extract_golden_questions conv1 (some oracleOk)).questions.map
        GoldenQuestion.question = ["OMSKREVET"] ∧
    (extract_golden_questions conv1 (some oracleOk)).calls = 1 ∧
    pyStrip userMsg1.text = "Hva er det?" ∧ ("OMSKREVET" : String) ≠ "Hva er det?" := by
  refine ⟨rfl, rfl, rfl, by decide⟩

/-! ## The reformulator sleep schedule -/

theorem reformGo_sleeps (sched : Nat → RefCompletion) (maxR : Nat) :
    ∀ rem att, att + rem = maxR + 1 → att ≤ maxR →
      (reformGo sched maxR rem att att
          ((List.range att).map (fun k => 2 ^ (k + 1)))).sleeps =
        (List.range
            ((reformGo sched maxR rem att att
                ((List.range att).map (fun k => 2 ^ (k + 1)))).calls - 1)).map
          (fun k => 2 ^ (k + 1)) := by
  intro rem
  induction rem with
  | zero => intro att h1 h2; omega
  | succ rem ih =>
    intro att h1 h2
    simp only [reformGo]
    cases hc : reformAttemptResult (sched att) with
    | some v => simp
    | none =>
      by_cases hm : att = maxR
      · rw [if_pos hm]
        simp
      · rw [if_neg hm]
        have hs : (List.range att).map (fun k => 2 ^ (k + 1)) ++ [2 ^ (att + 1)] =
            (List.range (att + 1)).map (fun k => 2 ^ (k + 1)) := by
          rw [List.range_succ att]
          simp
        rw [hs]
        exact ih (att + 1) (by omega) (by omega)

/-- Claim C7 (amended): when an attempt fails and retries remain, the
reformulator sleeps exactly `2 ^ (attempt + 1)` seconds — two seconds after
the first failed attempt, i.e. `2 ^ attempt` with attempts counted from one,
so the run's sleep list is always `[2, 4, …]` with one entry per non-final
attempt; and after exhausting the retry limit the item is recorded as failed
with the conversation id, the trimmed original text and the failure reason,
and is excluded from the output (questions and failure records partition the
processed user turns). -/
theorem C7_backoff_and_failure_recording :
    (∀ (r : Nat) (sched : Nat → RefCompletion),
      (reformulate_question_llm sched r).sleeps =
        (List.range ((reformulate_question_llm sched r).calls - 1)).map
          (fun k => 2 ^ (k + 1))) ∧
    (∀ (conv : Conversation) (f : Reformulator),
      (∀ rec ∈ (extract_golden_questions conv (some f)).failed,
        rec.conversation_id = conv.id ∧
        ∃ msg, msg ∈ conv.messages ∧ msg.role = some "user" ∧
          pyStrip msg.text ≠ "" ∧ rec.original_question = pyStrip msg.text ∧
          ∃ ctx, f msg.text ctx = Except.error rec.failure_reason) ∧
      (extract_golden_questions conv (some f)).questions.length +
          (extract_golden_questions conv (some f)).failed.length =
        conv.messages.countP meaningfulUser) := by
  constructor
  · intro r sched
    have h := reformGo_sleeps sched r (r + 1) 0 (by omega) (by omega)
    simpa [reformulate_question_llm] using h
  · intro conv f
    exact ⟨extractLoop_failed_provenance conv f _ conv.messages 0 0 (fun m hm => hm),
      extractLoop_count conv (some f) _ conv.messages 0 0⟩

/-- Claim C7, witness: on the schedule whose first attempt fails and whose
second succeeds, with retry limit 1, the run sleeps `[2]` as characterized
by the amended theorem, and on `conv2` with an always-failing oracle the
failure record of the second user turn satisfies the recording clauses and
the question/failure counts partition the two processed turns. -/
theorem C7_witness :
    (reformulate_question_llm sched7 1).sleeps =
      (List.range ((reformulate_question_llm sched7 1).calls - 1)).map
        (fun k => 2 ^ (k + 1)) ∧
    (reformulate_question_llm sched7 1).sleeps = [2] ∧
    (extract_golden_questions conv2 (some oracleFail)).questions.length +
        (extract_golden_questions conv2 (some oracleFail)).failed.length =
      conv2.messages.countP meaningfulUser ∧
    ((extract_golden_questions conv2 (some oracleFail)).failed.map
        FailedReform.original_question) = ["Og mer?"] :=
  ⟨C7_backoff_and_failure_recording.1 1 sched7, rfl,
    (C7_backoff_and_failure_recording.2 conv2 oracleFail).2, rfl⟩

/-- Claim C7, counterexample: with retry limit 1 and an API error on the
first attempt, the reformulator sleeps 2 seconds before the second attempt,
not `2 ^ 0 = 1` second as the claim (zero-based `2 ^ attempt`) states. -/
theorem C7_counterexample :
    (reformulate_question_llm sched7 1).sleeps = [2] ∧
    (reformulate_question_llm sched7 1).sleeps ≠ [2 ^ 0] := by
  refine ⟨rfl, by decide⟩

/-! ## Claims C8, C2 and C5 -/

/-- Claim C8: when semantic deduplication is enabled and embedding
generation raises (`RuntimeError`), `deduplicate_questions` does not
propagate the error — it returns exactly the result of the exact-match
stage, records only the exact-match duplicates, and applies the usual
dropped-file logic to them. -/
theorem C8_embedding_failure_fallback (qs : List GoldenQuestion)
    (oPath : Option String) (m : String) (t : ℚ) (h1 : 0 ≤ t) (h2 : t ≤ 1) :
    deduplicate_questions qs oPath true t (some EmbedClient.failing) (some m) =
      dedupFinish oPath (exactStage qs).1 (exactStage qs).2 := by
  simp only [deduplicate_questions]
  rw [if_neg (not_not_intro ⟨h1, h2⟩), if_neg (by simp)]
  by_cases hq : qs = []
  · subst hq
    rw [if_pos rfl]
    simp [dedupFinish, exactStage, exactGo]
  · rw [if_neg hq]
    by_cases hlen : (exactStage qs).1.length > 1
    · rw [if_pos ⟨by trivial, hlen⟩]
    · rw [if_neg (by simp [hlen])]

/-- Claim C8, witness: on a list with one exact duplicate and a failing
embedding backend, deduplication succeeds with the exact-match survivors
and the single exact-match duplicate record. -/
theorem C8_witness :
    deduplicate_questions [mkQ "x", mkQ "x", mkQ "y"] none true (23/25)
        (some EmbedClient.failing) (some "m") =
      Except.ok ⟨[mkQ "x", mkQ "y"], [(mkQ "x", mkQ "x", 1)], none⟩ :=
  (C8_embedding_failure_fallback [mkQ "x", mkQ "x", mkQ "y"] none "m" (23/25)
    (by norm_num) (by norm_num)).trans (by decide)

/-- Claim C2 (amended): with semantic deduplication disabled the run is
identical for all valid thresholds, so a higher threshold trivially retains
at least as many questions; with semantic deduplication enabled the
monotonicity property fails (see the counterexample). -/
theorem C2_threshold_monotonicity (qs : List GoldenQuestion)
    (oPath : Option String) (t1 t2 : ℚ) (h1a : 0 ≤ t1) (h1b : t1 ≤ 1)
    (h2a : 0 ≤ t2) (h2b : t2 ≤ 1) :
    deduplicate_questions qs oPath false t1 none none =
      deduplicate_questions qs oPath false t2 none none ∧
    dedupResultLength (deduplicate_questions qs oPath false t2 none none) ≥
      dedupResultLength (deduplicate_questions qs oPath false t1 none none) := by
  have h : deduplicate_questions qs oPath false t1 none none =
      deduplicate_questions qs oPath false t2 none none := by
    simp only [deduplicate_questions]
    rw [if_neg (not_not_intro ⟨h1a, h1b⟩), if_neg (not_not_intro ⟨h2a, h2b⟩)]
  exact ⟨h, le_of_eq (by rw [h])⟩

/-- Claim C2, witness: the amended theorem applied to the four-question
list at the valid thresholds 0.85 < 0.92 with semantic deduplication
disabled. -/
theorem C2_witness :
    deduplicate_questions qs4 (some "p") false (17/20) none none =
      deduplicate_questions qs4 (some "p") false (23/25) none none ∧
    dedupResultLength (deduplicate_questions qs4 (some "p") false (23/25) none none) ≥
      dedupResultLength (deduplicate_questions qs4 (some "p") false (17/20) none none) :=
  C2_threshold_monotonicity qs4 (some "p") (17/20) (23/25) (by norm_num)
    (by norm_num) (by norm_num) (by norm_num)

/-- Claim C2, counterexample: with semantic deduplication enabled on four
questions whose pairwise similarities are realizable by genuine unit
vectors, the valid thresholds 0.85 < 0.92 retain three and two questions
respectively — the higher threshold retains strictly fewer, refuting the
monotonicity claim. -/
theorem C2_counterexample :
    (mkRat 17 20 : ℚ) < mkRat 23 25 ∧ (0 : ℚ) ≤ mkRat 17 20 ∧ (mkRat 23 25 : ℚ) ≤ 1 ∧
    dedupResultLength (deduplicate_questions qs4 none true (mkRat 17 20)
      (some (EmbedClient.sim simC2)) (some "m")) = 3 ∧
    dedupResultLength (deduplicate_questions qs4 none true (mkRat 23 25)
      (some (EmbedClient.sim simC2)) (some "m")) = 2 ∧
    ¬ (2 ≥ 3) := by
  refine ⟨by decide, by decide, by decide, by decide, by decide, by decide⟩

/-- Claim C5 (amended): the failed-reformulations, failed-usage-mode and
failed-subject-topics files are unconditionally rewritten from scratch
(overwrite mode) with the current run's records, also when the record list
is empty; the dropped-conversations file is rewritten whenever a (truthy)
path is given, also with an empty dropped list; but the dropped-duplicates
file is written only when the run recorded at least one duplicate — on a
zero-duplicate run it is left untouched, so stale duplicate records can
linger. -/
theorem C5_side_channel_overwrite :
    (∀ recs : List FailedReform,
      _save_failed_reformulations recs = (WriteMode.overwrite, recs)) ∧
    (∀ recs : List GoldenQuestion,
      _save_failed_categorizations recs = (WriteMode.overwrite, recs)) ∧
    (∀ (convs : List Conversation) (path : String), path ≠ "" →
      (filter_conversations convs (some path)).2 =
        some (WriteMode.overwrite,
          (convs.filter (fun c => ¬ should_process_conversation c)).map
            droppedConvRecord)) ∧
    (∀ (qs : List GoldenQuestion) (path : String) (t : ℚ),
      0 ≤ t → t ≤ 1 → path ≠ "" →
      ∃ run, deduplicate_questions qs (some path) false t none none =
          Except.ok run ∧
        (run.fileWrite = none ↔ run.duplicates = []) ∧
        ∀ recs, run.fileWrite = some (WriteMode.overwrite, recs) →
          recs = run.duplicates) := by
  refine ⟨fun recs => rfl, fun recs => rfl, ?_, ?_⟩
  · intro convs path hp
    simp [filter_conversations, pathTruthy, hp]
  · intro qs path t h1 h2 hp
    simp only [deduplicate_questions]
    rw [if_neg (not_not_intro ⟨h1, h2⟩), if_neg (by simp)]
    by_cases hq : qs = []
    · subst hq
      rw [if_pos rfl]
      exact ⟨⟨[], [], none⟩, rfl, by simp, by simp⟩
    · rw [if_neg hq]
      rw [if_neg (by simp)]
      refine ⟨_, rfl, ?_, ?_⟩
      · simp only [dedupFinish]
        by_cases hd : (exactStage qs).2 = []
        · simp [hd]
        · simp [hd, pathTruthy, hp]
      · intro recs hrecs
        simp only [dedupFinish] at hrecs
        by_cases hd : (exactStage qs).2 = []
        · simp [hd] at hrecs
        · simp [hd, pathTruthy, hp] at hrecs
          exact hrecs.symm

/-- Claim C5, witness: a run with no dropped conversations still rewrites
the dropped-conversations file with an empty record list, and a
deduplication run with one exact duplicate writes the dropped-duplicates
file with exactly that record. -/
theorem C5_witness :
    (filter_conversations [conv1] (some "d.jsonl")).2 =
      some (WriteMode.overwrite, []) ∧
    ∃ run, deduplicate_questions [mkQ "x", mkQ "x"] (some "p") false (mkRat 1 2)
        none none = Except.ok run ∧
      (run.fileWrite = none ↔ run.duplicates = []) ∧
      ∀ recs, run.fileWrite = some (WriteMode.overwrite, recs) →
        recs = run.duplicates := by
  constructor
  · exact (C5_side_channel_overwrite.2.2.1 [conv1] "d.jsonl" (by decide)).trans
      (by decide)
  · exact C5_side_channel_overwrite.2.2.2 [mkQ "x", mkQ "x"] "p" (mkRat 1 2)
      (by decide) (by decide) (by decide)

/-- Claim C5, counterexample: a deduplication run that finds zero
duplicates, with a truthy dropped-duplicates path, leaves the
dropped-duplicates file untouched (`fileWrite = none`) — the file is not
rewritten from scratch as the claim states, so stale records from a
previous run survive a zero-duplicate run. -/
theorem C5_counterexample :
    deduplicate_questions [mkQ "a", mkQ "b"]
        (some "golden_questions_dropped_duplicates.jsonl") false (mkRat 1 2)
        none none =
      Except.ok ⟨[mkQ "a", mkQ "b"], [], none⟩ := by
  decide

/-! ## Claim C1: the semantic stage is the spec's ordered greedy sweep -/

theorem specSweep_append (sim : Nat → Nat → ℚ) (t : ℚ) (l1 l2 : List (Nat × Nat)) :
    ∀ removed, specSweep sim t (l1 ++ l2) removed =
      specSweep sim t l2 (specSweep sim t l1 removed) := by
  induction l1 with
  | nil => intro removed; rfl
  | cons p rest ih =>
    intro removed
    rcases p with ⟨i, j⟩
    rw [List.cons_append, specSweep, specSweep]
    by_cases h : i ∉ removed ∧ j ∉ removed ∧ t ≤ sim i j
    · rw [if_pos h, if_pos h, ih]
    · rw [if_neg h, if_neg h, ih]

theorem specSweep_skip (sim : Nat → Nat → ℚ) (t : ℚ) (i : Nat) (js : List Nat) :
    ∀ removed, i ∈ removed →
      specSweep sim t (js.map (fun j => (i, j))) removed = removed := by
  induction js with
  | nil => intro removed _; rfl
  | cons j js ih =>
    intro removed hi
    rw [List.map_cons, specSweep, if_neg (by tauto)]
    exact ih removed hi

theorem innerScan_eq_specSweep (sim : Nat → Nat → ℚ) (t : ℚ) (i : Nat)
    (js : List Nat) :
    ∀ removed pairs, i ∉ removed → (∀ j ∈ js, j ≠ i) →
      (innerScan sim t i js removed pairs).1 =
        specSweep sim t (js.map (fun j => (i, j))) removed := by
  induction js with
  | nil => intro removed pairs _ _; rfl
  | cons j js ih =>
    intro removed pairs hi hne
    rw [List.map_cons, innerScan, specSweep]
    by_cases hj : j ∈ removed
    · rw [if_pos hj, if_neg (by tauto)]
      exact ih removed pairs hi (fun x hx => hne x (List.mem_cons_of_mem _ hx))
    · rw [if_neg hj]
      by_cases hsim : t ≤ sim i j
      · rw [if_pos hsim, if_pos ⟨hi, hj, hsim⟩]
        refine ih (j :: removed) _ ?_ (fun x hx => hne x (List.mem_cons_of_mem _ hx))
        intro hmem
        rcases List.mem_cons.mp hmem with h | h
        · exact hne j (List.mem_cons_self _ _) h.symm
        · exact hi h
      · rw [if_neg hsim, if_neg (by tauto)]
        exact ih removed pairs hi (fun x hx => hne x (List.mem_cons_of_mem _ hx))

theorem outerScan_eq_specSweep (sim : Nat → Nat → ℚ) (t : ℚ) (n : Nat)
    (is : List Nat) :
    ∀ removed pairs, (outerScan sim t n is removed pairs).1 =
      specSweep sim t
        (is.flatMap fun i => (List.range' (i + 1) (n - (i + 1))).map fun j => (i, j))
        removed := by
  induction is with
  | nil => intro removed pairs; rfl
  | cons i is ih =>
    intro removed pairs
    rw [List.flatMap_cons, specSweep_append, outerScan]
    by_cases hi : i ∈ removed
    · rw [if_pos hi, specSweep_skip sim t i _ removed hi]
      exact ih removed pairs
    · rw [if_neg hi]
      have hne : ∀ j ∈ List.range' (i + 1) (n - (i + 1)), j ≠ i := by
        intro j hj
        have := List.mem_range'_1.mp hj
        omega
      rw [ih _ _, innerScan_eq_specSweep sim t i _ removed pairs hi hne]

/-- The removed set computed by the translated double loop equals the spec's
greedy sweep over the ascending pair list. -/
theorem outerScan_removed_eq (sim : Nat → Nat → ℚ) (t : ℚ) (n : Nat) :
    (outerScan sim t n (List.range n) [] []).1 = specRemoved n sim t :=
  outerScan_eq_specSweep sim t n (List.range n) [] []

/-- A list of at most one element survives the sweep unchanged. -/
theorem specSurvivors_small (l : List GoldenQuestion) (sim : Nat → Nat → ℚ)
    (t : ℚ) (h : l.length ≤ 1) : specSurvivors l sim t = l := by
  rw [specSurvivors]
  have h0 : specRemoved l.length sim t = [] := by
    rcases hl : l.length with _ | n
    · rfl
    · rcases n with _ | n
      · rfl
      · omega
  rw [h0]
  simp [List.enum_map_snd]

/-- Claim C1 (amended): for every question list, similarity assignment and
valid threshold, the semantic stage removes exactly the indices selected by
the spec's single ordered greedy sweep — scanning pairs `(i, j)` with
`i < j` in ascending order and marking `j` a duplicate of `i` iff
`sim i j ≥ t` and neither index was removed earlier — and the returned list
is the surviving exact-stage questions in their original order.  (In the
spec's a-b-c example the sweep drops `b` in favour of `a` while `c`
survives, because the pair `(b, c)` is skipped once `b` is removed; see the
counterexample.) -/
theorem C1_semantic_sweep_spec (qs : List GoldenQuestion) (sim : Nat → Nat → ℚ)
    (t : ℚ) (oPath : Option String) (m : String) (h1 : 0 ≤ t) (h2 : t ≤ 1) :
    ∃ run, deduplicate_questions qs oPath true t (some (EmbedClient.sim sim))
        (some m) = Except.ok run ∧
      run.result = specSurvivors (exactStage qs).1 sim t := by
  simp only [deduplicate_questions]
  rw [if_neg (not_not_intro ⟨h1, h2⟩), if_neg (by simp)]
  by_cases hq : qs = []
  · subst hq
    rw [if_pos rfl]
    exact ⟨⟨[], [], none⟩, rfl, by simp [specSurvivors, exactStage, exactGo]⟩
  · rw [if_neg hq]
    by_cases hlen : (exactStage qs).1.length > 1
    · rw [if_pos ⟨by trivial, hlen⟩]
      refine ⟨_, rfl, ?_⟩
      show ((exactStage qs).1.enum.filter _).map Prod.snd = _
      rw [specSurvivors, outerScan_removed_eq sim t (exactStage qs).1.length]
    · rw [if_neg (by simp [hlen])]
      refine ⟨_, rfl, ?_⟩
      exact (specSurvivors_small (exactStage qs).1 sim t (by omega)).symm

/-- Claim C1, witness: on three distinct questions with the a-b-c similarity
pattern at threshold 0.9, the code's result equals the spec-side sweep's
survivors, namely questions `a` and `c`. -/
theorem C1_witness :
    specSurvivors (exactStage [mkQ "a", mkQ "b", mkQ "c"]).1 simABC
        (mkRat 9 10) = [mkQ "a", mkQ "c"] ∧
    ∃ run, deduplicate_questions [mkQ "a", mkQ "b", mkQ "c"] none true
        (mkRat 9 10) (some (EmbedClient.sim simABC)) (some "m") =
        Except.ok run ∧
      run.result = [mkQ "a", mkQ "c"] := by
  refine ⟨by decide, ?_⟩
  obtain ⟨run, hrun, hres⟩ := C1_semantic_sweep_spec [mkQ "a", mkQ "b", mkQ "c"]
    simABC (mkRat 9 10) none "m" (by decide) (by decide)
  exact ⟨run, hrun, hres.trans (by decide)⟩

/-- Claim C1, counterexample: with sim(a,b) ≥ t, sim(b,c) ≥ t and
sim(a,c) < t the sweep keeps `a` and `c` and drops only `b` — contradicting
the claim's parenthetical that both `b` and `c` are dropped in favour of
`a`.  Once `b` is removed by the pair `(a, b)`, the pair `(b, c)` is
skipped, and `(a, c)` is below the threshold, so `c` survives. -/
theorem C1_counterexample :
    deduplicate_questions [mkQ "a", mkQ "b", mkQ "c"] none true (mkRat 9 10)
        (some (EmbedClient.sim simABC)) (some "m") =
      Except.ok ⟨[mkQ "a", mkQ "c"], [(mkQ "b", mkQ "a", mkRat 19 20)], none⟩ ∧
    mkRat 9 10 ≤ simABC 0 1 ∧ mkRat 9 10 ≤ simABC 1 2 ∧
    simABC 0 2 < mkRat 9 10 := by
  refine ⟨by decide, by decide, by decide, by decide⟩

/-! ## Claim C10: filter extraction -/

/-- Characterization of lookups after `entryAdd`. -/
theorem lookupEntry_entryAdd (o : FOpt) (n : String) :
    ∀ (fs : List (String × List FOpt)) (name : String),
    lookupEntry (entryAdd fs name o) n =
      if n = name then
        (lookupEntry fs name).map (fun l => if o ∈ l then l else l ++ [o])
      else lookupEntry fs n := by
  intro fs
  induction fs with
  | nil =>
    intro name
    by_cases h : n = name <;> simp [entryAdd, lookupEntry, h]
  | cons p rest ih =>
    intro name
    rcases p with ⟨k, l⟩
    rw [entryAdd]
    by_cases hk : k = name
    · rw [if_pos hk]
      by_cases hn : n = name
      · have hkn : k = n := hk.trans hn.symm
        rw [lookupEntry, if_pos hkn, if_pos hn, lookupEntry, if_pos hk]
        rfl
      · have hkn : ¬ k = n := fun h => hn ((h.symm).trans hk)
        rw [lookupEntry, if_neg hkn, if_neg hn, lookupEntry, if_neg hkn]
    · rw [if_neg hk, lookupEntry, ih name]
      by_cases hkn : k = n
      · have hn : ¬ n = name := fun h => hk (hkn.trans h)
        rw [if_pos hkn, if_neg hn, lookupEntry, if_pos hkn]
      · rw [if_neg hkn]
        by_cases hn : n = name
        · rw [if_pos hn, if_pos hn]
          have : lookupEntry ((k, l) :: rest) name = lookupEntry rest name := by
            rw [lookupEntry, if_neg (fun h => hk h)]
          rw [this]
        · rw [if_neg hn, if_neg hn, lookupEntry, if_neg hkn]

/-- Lookup after appending a fresh entry at the end. -/
theorem lookupEntry_append (fs : List (String × List FOpt)) (k : String)
    (v : List FOpt) (n : String) :
    lookupEntry (fs ++ [(k, v)]) n =
      match lookupEntry fs n with
      | some l => some l
      | none => if k = n then some v else none := by
  induction fs with
  | nil => rfl
  | cons p rest ih =>
    by_cases h : p.1 = n
    · simp [lookupEntry, h]
    · simp [lookupEntry, h, ih]

/-- The entry created by `ensureEntry` is present, and existing entries are
unchanged. -/
theorem lookupEntry_ensureEntry_same (fs : List (String × List FOpt))
    (name : String) :
    lookupEntry (ensureEntry fs name) name =
      some ((lookupEntry fs name).getD []) := by
  rw [ensureEntry]
  cases h : lookupEntry fs name with
  | some l =>
    rw [if_pos (show (some l).isSome = true from rfl)]
    exact h
  | none =>
    rw [if_neg (by simp), lookupEntry_append, h]
    simp

theorem lookupEntry_ensureEntry_other (fs : List (String × List FOpt))
    (name n : String) (hn : n ≠ name) :
    lookupEntry (ensureEntry fs name) n = lookupEntry fs n := by
  rw [ensureEntry]
  by_cases h : (lookupEntry fs name).isSome = true
  · rw [if_pos h]
  · rw [if_neg h, lookupEntry_append]
    cases hl : lookupEntry fs n with
    | some l => rfl
    | none =>
      show (if name = n then some [] else none) = none
      rw [if_neg (fun hh => hn hh.symm)]

/-- The dict invariant: every stored list is duplicate-free, and the
`"type"` entry never contains the uncorrected typo. -/
def FiltersInv (fs : List (String × List FOpt)) : Prop :=
  ∀ nm l, lookupEntry fs nm = some l →
    l.Nodup ∧ (nm = "type" → FOpt.str "Årsrapprt" ∉ l)

theorem applyCorrection_ne (s : String) :
    FOpt.str (applyCorrection s) ≠ FOpt.str "Årsrapprt" := by
  simp only [ne_eq, FOpt.str.injEq]
  by_cases hs : s = "Årsrapprt"
  · subst hs
    decide
  · rw [applyCorrection]
    have hfind : DOCUMENT_TYPE_CORRECTIONS.find? (fun p => p.1 = s) = none := by
      simp [DOCUMENT_TYPE_CORRECTIONS, List.find?,
        show ¬ ("Årsrapprt" = s) from fun h => hs h.symm]
    rw [hfind]
    exact hs

theorem entryAdd_inv (fs : List (String × List FOpt)) (name : String) (o : FOpt)
    (hinv : FiltersInv fs) (ho : name = "type" → o ≠ FOpt.str "Årsrapprt") :
    FiltersInv (entryAdd fs name o) := by
  intro nm l h
  rw [lookupEntry_entryAdd] at h
  by_cases hn : nm = name
  · rw [if_pos hn] at h
    rcases Option.map_eq_some'.mp h with ⟨l0, hl0, hl⟩
    rcases hinv name l0 hl0 with ⟨hnodup, htype⟩
    subst hl
    subst hn
    by_cases hmem : o ∈ l0
    · rw [if_pos hmem]
      exact ⟨hnodup, htype⟩
    · rw [if_neg hmem]
      constructor
      · rw [List.nodup_append]
        refine ⟨hnodup, List.nodup_singleton o, ?_⟩
        intro x hx hxo
        rw [List.mem_singleton] at hxo
        subst hxo
        exact hmem hx
      · intro ht hmem2
        rcases List.mem_append.mp hmem2 with h2 | h2
        · exact htype ht h2
        · rw [List.mem_singleton] at h2
          exact ho ht h2.symm
  · rw [if_neg hn] at h
    exact hinv nm l h

theorem ensureEntry_inv (fs : List (String × List FOpt)) (name : String)
    (hinv : FiltersInv fs) : FiltersInv (ensureEntry fs name) := by
  intro nm l h
  by_cases hn : nm = name
  · subst hn
    rw [lookupEntry_ensureEntry_same] at h
    cases hfs : lookupEntry fs nm with
    | some l0 =>
      rw [hfs] at h
      cases h
      exact hinv nm l0 hfs
    | none =>
      rw [hfs] at h
      cases h
      exact ⟨List.nodup_nil, fun _ => List.not_mem_nil _⟩
  · rw [lookupEntry_ensureEntry_other fs name nm hn] at h
    exact hinv nm l h

theorem typeFold_inv (name : String) (opts : List FOpt) :
    ∀ fs, FiltersInv fs →
      FiltersInv (opts.foldl
        (fun acc o =>
          match o with
          | FOpt.str s => entryAdd acc name (FOpt.str (applyCorrection s))
          | FOpt.other _ => acc) fs) := by
  induction opts with
  | nil => intro fs h; exact h
  | cons o opts ih =>
    intro fs h
    rw [List.foldl_cons]
    cases o with
    | str s => exact ih _ (entryAdd_inv fs name _ h (fun _ => applyCorrection_ne s))
    | other tag => exact ih _ h

theorem otherFold_inv (name : String) (hname : name ≠ "type") (opts : List FOpt) :
    ∀ fs, FiltersInv fs →
      FiltersInv (opts.foldl (fun acc o => entryAdd acc name o) fs) := by
  induction opts with
  | nil => intro fs h; exact h
  | cons o opts ih =>
    intro fs h
    rw [List.foldl_cons]
    exact ih _ (entryAdd_inv fs name o h (fun ht => absurd ht hname))

theorem addFieldOptions_inv (fs : List (String × List FOpt)) (name : String)
    (opts : List FOpt) (hinv : FiltersInv fs) :
    FiltersInv (addFieldOptions fs name opts) := by
  rw [addFieldOptions]
  have hens := ensureEntry_inv fs name hinv
  by_cases h3 : name = "type"
  · rw [if_pos h3]
    exact typeFold_inv name opts _ hens
  · rw [if_neg h3]
    exact otherFold_inv name h3 opts _ hens

theorem processField_inv (fs : List (String × List FOpt)) (f : FilterField)
    (hinv : FiltersInv fs) : FiltersInv (processField fs f) := by
  rw [processField]
  cases hf : f.field with
  | none => exact hinv
  | some name =>
    show FiltersInv
      (if name = "" then fs
       else if f.selectedOptions = [] then fs
       else addFieldOptions fs name f.selectedOptions)
    by_cases h1 : name = ""
    · rw [if_pos h1]; exact hinv
    · rw [if_neg h1]
      by_cases h2 : f.selectedOptions = []
      · rw [if_pos h2]; exact hinv
      · rw [if_neg h2]
        exact addFieldOptions_inv fs name f.selectedOptions hinv

theorem fieldsFold_inv (flds : List FilterField) :
    ∀ fs, FiltersInv fs → FiltersInv (flds.foldl processField fs) := by
  induction flds with
  | nil => intro fs h; exact h
  | cons f flds ih =>
    intro fs h
    rw [List.foldl_cons]
    exact ih _ (processField_inv fs f h)

theorem msgStep_inv (fs : List (String × List FOpt)) (msg : Message)
    (hinv : FiltersInv fs) :
    FiltersInv
      (match msg.filterValue with
       | none => fs
       | some fv => fv.fields.foldl processField fs) := by
  cases msg.filterValue with
  | none => exact hinv
  | some fv => exact fieldsFold_inv fv.fields fs hinv

theorem extract_filters_inv (messages : List Message) :
    FiltersInv (extract_filters messages) := by
  rw [extract_filters]
  have h : ∀ (msgs : List Message) (fs : List (String × List FOpt)), FiltersInv fs →
      FiltersInv (List.foldl
        (fun (fs : List (String × List FOpt)) (msg : Message) =>
          match msg.filterValue with
          | none => fs
          | some fv => fv.fields.foldl processField fs) fs msgs) := by
    intro msgs
    induction msgs with
    | nil => intro fs h; exact h
    | cons msg msgs ih =>
      intro fs h
      rw [List.foldl_cons]
      exact ih _ (msgStep_inv fs msg h)
  exact h messages [] (fun nm l hl => by cases hl)

/-! ## Monotonicity of the filters accumulator -/

/-- Entries only grow during `extract_filters`: every stored entry keeps its
key and its values. -/
def FiltersLe (fs fs' : List (String × List FOpt)) : Prop :=
  ∀ nm l, lookupEntry fs nm = some l →
    ∃ l', lookupEntry fs' nm = some l' ∧ l ⊆ l'

theorem filtersLe_refl (fs : List (String × List FOpt)) : FiltersLe fs fs :=
  fun _ l h => ⟨l, h, List.Subset.refl l⟩

theorem filtersLe_trans {fs1 fs2 fs3 : List (String × List FOpt)}
    (h12 : FiltersLe fs1 fs2) (h23 : FiltersLe fs2 fs3) : FiltersLe fs1 fs3 := by
  intro nm l h
  rcases h12 nm l h with ⟨l2, hl2, hsub2⟩
  rcases h23 nm l2 hl2 with ⟨l3, hl3, hsub3⟩
  exact ⟨l3, hl3, hsub2.trans hsub3⟩

theorem entryAdd_le (fs : List (String × List FOpt)) (name : String) (o : FOpt) :
    FiltersLe fs (entryAdd fs name o) := by
  intro nm l h
  rw [lookupEntry_entryAdd]
  by_cases hn : nm = name
  · subst hn
    rw [if_pos rfl, h]
    by_cases hmem : o ∈ l
    · exact ⟨l, by simp [hmem], List.Subset.refl l⟩
    · exact ⟨l ++ [o], by simp [hmem], List.subset_append_left l [o]⟩
  · rw [if_neg hn]
    exact ⟨l, h, List.Subset.refl l⟩

theorem ensureEntry_le (fs : List (String × List FOpt)) (name : String) :
    FiltersLe fs (ensureEntry fs name) := by
  intro nm l h
  by_cases hn : nm = name
  · subst hn
    rw [lookupEntry_ensureEntry_same, h]
    exact ⟨l, rfl, List.Subset.refl l⟩
  · rw [lookupEntry_ensureEntry_other fs name nm hn]
    exact ⟨l, h, List.Subset.refl l⟩

theorem foldl_le {α : Type} (step : List (String × List FOpt) → α →
      List (String × List FOpt))
    (hstep : ∀ acc o, FiltersLe acc (step acc o)) (opts : List α) :
    ∀ acc, FiltersLe acc (opts.foldl step acc) := by
  induction opts with
  | nil => intro acc; exact filtersLe_refl acc
  | cons o opts ih =>
    intro acc
    rw [List.foldl_cons]
    exact filtersLe_trans (hstep acc o) (ih (step acc o))

theorem typeStep_le (name : String) (acc : List (String × List FOpt)) (o : FOpt) :
    FiltersLe acc
      (match o with
       | FOpt.str s => entryAdd acc name (FOpt.str (applyCorrection s))
       | FOpt.other _ => acc) := by
  cases o with
  | str s => exact entryAdd_le acc name _
  | other tag => exact filtersLe_refl acc

theorem addFieldOptions_le (fs : List (String × List FOpt)) (name : String)
    (opts : List FOpt) : FiltersLe fs (addFieldOptions fs name opts) := by
  rw [addFieldOptions]
  by_cases h : name = "type"
  · rw [if_pos h]
    exact filtersLe_trans (ensureEntry_le fs name)
      (foldl_le _ (typeStep_le name) opts _)
  · rw [if_neg h]
    exact filtersLe_trans (ensureEntry_le fs name)
      (foldl_le _ (fun acc o => entryAdd_le acc name o) opts _)

theorem processField_le (fs : List (String × List FOpt)) (f : FilterField) :
    FiltersLe fs (processField fs f) := by
  rw [processField]
  cases hf : f.field with
  | none => exact filtersLe_refl fs
  | some name =>
    show FiltersLe fs
      (if name = "" then fs
       else if f.selectedOptions = [] then fs
       else addFieldOptions fs name f.selectedOptions)
    by_cases h1 : name = ""
    · rw [if_pos h1]; exact filtersLe_refl fs
    · rw [if_neg h1]
      by_cases h2 : f.selectedOptions = []
      · rw [if_pos h2]; exact filtersLe_refl fs
      · rw [if_neg h2]
        exact addFieldOptions_le fs name f.selectedOptions

theorem msgStep_le (fs : List (String × List FOpt)) (msg : Message) :
    FiltersLe fs
      (match msg.filterValue with
       | none => fs
       | some fv => fv.fields.foldl processField fs) := by
  cases msg.filterValue with
  | none => exact filtersLe_refl fs
  | some fv => exact foldl_le processField processField_le fv.fields fs

/-- Transport of a stored membership along `FiltersLe`. -/
theorem mem_of_filtersLe {fs fs' : List (String × List FOpt)} {nm : String}
    {l : List FOpt} {x : FOpt} (hle : FiltersLe fs fs')
    (h : lookupEntry fs nm = some l) (hx : x ∈ l) :
    ∃ l', lookupEntry fs' nm = some l' ∧ x ∈ l' := by
  rcases hle nm l h with ⟨l', hl', hsub⟩
  exact ⟨l', hl', hsub hx⟩

/-! ## Membership of corrected type options -/

theorem entryAdd_mem_self (fs : List (String × List FOpt)) (name : String)
    (o : FOpt) (h : (lookupEntry fs name).isSome = true) :
    ∃ l, lookupEntry (entryAdd fs name o) name = some l ∧ o ∈ l := by
  rcases Option.isSome_iff_exists.mp h with ⟨l0, hl0⟩
  rw [lookupEntry_entryAdd, if_pos rfl, hl0]
  by_cases hmem : o ∈ l0
  · exact ⟨l0, by simp [hmem], hmem⟩
  · exact ⟨l0 ++ [o], by simp [hmem], by simp⟩

theorem typeStep_isSome (name : String) (acc : List (String × List FOpt))
    (o : FOpt) (h : (lookupEntry acc name).isSome = true) :
    (lookupEntry
        (match o with
         | FOpt.str s => entryAdd acc name (FOpt.str (applyCorrection s))
         | FOpt.other _ => acc) name).isSome = true := by
  cases o with
  | str s =>
    rcases entryAdd_mem_self acc name (FOpt.str (applyCorrection s)) h with ⟨l, hl, _⟩
    rw [hl]
    rfl
  | other tag => exact h

theorem typeFold_mem (name : String) (s : String) (opts : List FOpt) :
    ∀ fs, FOpt.str s ∈ opts → (lookupEntry fs name).isSome = true →
      ∃ l, lookupEntry
          (opts.foldl
            (fun acc o =>
              match o with
              | FOpt.str u => entryAdd acc name (FOpt.str (applyCorrection u))
              | FOpt.other _ => acc) fs) name = some l ∧
        FOpt.str (applyCorrection s) ∈ l := by
  induction opts with
  | nil => intro fs hmem _; cases hmem
  | cons o opts ih =>
    intro fs hmem hsome
    rw [List.foldl_cons]
    rcases List.mem_cons.mp hmem with hmem | hmem
    · subst hmem
      rcases entryAdd_mem_self fs name (FOpt.str (applyCorrection s)) hsome with
        ⟨l1, hl1, hin⟩
      exact mem_of_filtersLe (foldl_le _ (typeStep_le name) opts _) hl1 hin
    · exact ih _ hmem (typeStep_isSome name fs o hsome)

theorem addFieldOptions_type_mem (fs : List (String × List FOpt)) (s : String)
    (opts : List FOpt) (hs : FOpt.str s ∈ opts) :
    ∃ l, lookupEntry (addFieldOptions fs "type" opts) "type" = some l ∧
      FOpt.str (applyCorrection s) ∈ l := by
  rw [addFieldOptions, if_pos rfl]
  refine typeFold_mem "type" s opts _ hs ?_
  rw [lookupEntry_ensureEntry_same]
  rfl

theorem processField_type_mem (fs : List (String × List FOpt)) (f : FilterField)
    (s : String) (hf : f.field = some "type")
    (hs : FOpt.str s ∈ f.selectedOptions) :
    ∃ l, lookupEntry (processField fs f) "type" = some l ∧
      FOpt.str (applyCorrection s) ∈ l := by
  rw [processField]
  rw [hf]
  show ∃ l, lookupEntry
      (if ("type" : String) = "" then fs
       else if f.selectedOptions = [] then fs
       else addFieldOptions fs "type" f.selectedOptions) "type" = some l ∧ _
  rw [if_neg (by decide), if_neg (List.ne_nil_of_mem hs)]
  exact addFieldOptions_type_mem fs s f.selectedOptions hs

theorem fieldsFold_type_mem (flds : List FilterField) (fld : FilterField)
    (s : String) (hfld : fld ∈ flds) (hf : fld.field = some "type")
    (hs : FOpt.str s ∈ fld.selectedOptions) :
    ∀ fs, ∃ l, lookupEntry (flds.foldl processField fs) "type" = some l ∧
      FOpt.str (applyCorrection s) ∈ l := by
  intro fs
  rcases List.append_of_mem hfld with ⟨fp, fq, rfl⟩
  rw [List.foldl_append, List.foldl_cons]
  rcases processField_type_mem (fp.foldl processField fs) fld s hf hs with
    ⟨l1, hl1, hin⟩
  exact mem_of_filtersLe (foldl_le processField processField_le fq _) hl1 hin

/-- Claim C10: filter extraction silently auto-corrects document types —
for the field named `"type"` every selected option equal to `"Årsrapprt"`
is stored as `"Årsrapport"` (the corrected value of every selected string
option is present in the result and the typo itself never is), for every
field each selected value appears at most once (duplicates across messages
are collapsed), and unknown document types are kept (their corrected value
is stored like any other), being only logged. -/
theorem C10_filter_autocorrection (messages : List Message) :
    (∀ l, lookupEntry (extract_filters messages) "type" = some l →
      FOpt.str "Årsrapprt" ∉ l) ∧
    (∀ name l, lookupEntry (extract_filters messages) name = some l →
      l.Nodup) ∧
    (∀ msg ∈ messages, ∀ fv, msg.filterValue = some fv →
      ∀ fld ∈ fv.fields, fld.field = some "type" →
      ∀ s, FOpt.str s ∈ fld.selectedOptions →
      ∃ l, lookupEntry (extract_filters messages) "type" = some l ∧
        FOpt.str (applyCorrection s) ∈ l) := by
  refine ⟨fun l h => (extract_filters_inv messages "type" l h).2 rfl,
    fun name l h => (extract_filters_inv messages name l h).1, ?_⟩
  intro msg hmsg fv hfv fld hfld hf s hs
  rcases List.append_of_mem hmsg with ⟨mp, mq, rfl⟩
  rw [extract_filters, List.foldl_append, List.foldl_cons]
  have hstep : ∃ l,
      lookupEntry
        (match msg.filterValue with
         | none => List.foldl
            (fun (fs : List (String × List FOpt)) (msg : Message) =>
              match msg.filterValue with
              | none => fs
              | some fv => fv.fields.foldl processField fs) [] mp
         | some fv => fv.fields.foldl processField
            (List.foldl
              (fun (fs : List (String × List FOpt)) (msg : Message) =>
                match msg.filterValue with
                | none => fs
                | some fv => fv.fields.foldl processField fs) [] mp)) "type" =
        some l ∧ FOpt.str (applyCorrection s) ∈ l := by
    rw [hfv]
    exact fieldsFold_type_mem fv.fields fld s hfld hf hs _
  rcases hstep with ⟨l1, hl1, hin⟩
  exact mem_of_filtersLe
    (foldl_le _ (fun acc m => msgStep_le acc m) mq _) hl1 hin

/-- Claim C10, witness: on two copies of a message selecting the misspelled
`"Årsrapprt"`, its correct form, a non-string option and a duplicated
organisation, the corrected value is stored under `"type"`, and the final
filters map contains each value exactly once with the typo corrected. -/
theorem C10_witness :
    (∃ l, lookupEntry (extract_filters [fvMsg, fvMsg]) "type" = some l ∧
      FOpt.str (applyCorrection "Årsrapprt") ∈ l) ∧
    extract_filters [fvMsg, fvMsg] =
      [("type", [FOpt.str "Årsrapport"]), ("orgs_long", [FOpt.str "Digdir"])] := by
  constructor
  · exact (C10_filter_autocorrection [fvMsg, fvMsg]).2.2 fvMsg (by decide)
      ⟨[⟨some "type", [.str "Årsrapprt", .str "Årsrapport", .other 0]⟩,
        ⟨some "orgs_long", [.str "Digdir", .str "Digdir"]⟩]⟩ rfl
      ⟨some "type", [.str "Årsrapprt", .str "Årsrapport", .other 0]⟩ (by decide)
      rfl "Årsrapprt" (by decide)
  · decide

end GoldenQuestions
